import Mathlib

/-!
# Verification of the online assembly debugger's loader, resolver and controller

This development embeds, in Lean, the core of `src/js/unicorn-debugger.js`:
the ELF parser (`parseELF`), the function-symbol resolver
(`extractFunctionSymbols` / `detectFunctionsFromAssembly`), the memory-image
and stack construction in the `runUnicorn` click handler, the relocation
patching, and the `UnicornDebugger` step/run/breakpoint/reset controller.

Conventions of the embedding:
* JavaScript byte buffers become `List Nat`; multi-byte reads follow the
  exact `DataView` calls of the source (a read past the end of a buffer
  raises a `RangeError` in JS, embedded as `Option`/`Except` failure).
* The Unicorn CPU engine and the Capstone disassembler are external
  collaborators; they enter as oracle parameters (an `emuStart` step
  function and a `capstone` decode function).  Register and memory state
  owned by the engine is carried explicitly.
* JS `Number` arithmetic on 32-bit stores (`DataView.setInt32/setUint32`)
  reduces values modulo 2^32; the embedding uses `Int`/`Nat` with explicit
  `% 2^32`.
-/

namespace UDbg

/-! ## Byte-level primitives -/

/-- Little-endian byte encoding of `v` on `n` bytes, as written by the
`DataView.setUint32` / `setBigUint64` calls of the source. -/
def leBytes (n : Nat) (v : Nat) : List Nat :=
  (List.range n).map (fun i => v / 256 ^ i % 256)

/-- The 4 bytes stored by `new DataView(b).setInt32(0, x, true)`: JS converts
the number to 32 bits (two's complement, i.e. reduction mod 2^32) and stores
little-endian.  `setUint32` stores the same byte pattern for the same residue. -/
def encodeInt32LE (x : Int) : List Nat :=
  leBytes 4 (x % (4294967296 : Int)).toNat

/-- Read one byte from a buffer, `none` past the end (JS `RangeError`). -/
def readU8 (buf : List Nat) (off : Nat) : Option Nat :=
  buf.get? off

/-- `DataView.getUint32(off, true)` over a byte list. -/
def readU32 (buf : List Nat) (off : Nat) : Option Nat := do
  let a ← buf.get? off
  let b ← buf.get? (off + 1)
  let c ← buf.get? (off + 2)
  let d ← buf.get? (off + 3)
  pure (a + 256 * b + 65536 * c + 16777216 * d)

/-- `Number(DataView.getBigUint64(off, true))` over a byte list, as combined
by the source's symbol readers. -/
def readU64 (buf : List Nat) (off : Nat) : Option Nat := do
  let lo ← readU32 buf off
  let hi ← readU32 buf (off + 4)
  pure (lo + 4294967296 * hi)

/-- Decode a run of bytes as an ASCII string. -/
def bytesToString (bs : List Nat) : String :=
  String.mk (bs.map Char.ofNat)

/-! ## ELF Reader (`parseELF`, lines 1137-1180) -/

/-- Failure of `parseELF`: the explicit `throw new Error('Not an ELF file')`
on a magic mismatch, and the `RangeError`/`TypeError` aborts raised by
`DataView` reads or the `sh[eh.shstrndx]` lookup on truncated input.  Both
abort the parse entirely (spec taxonomy `MalformedContainer`:
"bad magic / truncated header"). -/
inductive ElfError where
  | notElf
  | outOfRange
deriving DecidableEq, Repr

/-- `view.getUint8(i)` with the JS `RangeError` turned into `Except`. -/
def getU8E (buf : List Nat) (i : Nat) : Except ElfError Nat :=
  match buf.get? i with
  | some b => .ok b
  | none => .error .outOfRange

/-- `readUint(view, off, size, le)` of the source: sizes 1, 2 and 4 read
directly; any other size takes the two-`getUint32` 64-bit path. -/
def readUintE (buf : List Nat) (off : Nat) (size : Nat) (le : Bool) :
    Except ElfError Nat :=
  if size = 1 then getU8E buf off
  else if size = 2 then do
    let a ← getU8E buf off
    let b ← getU8E buf (off + 1)
    pure (if le then a + 256 * b else b + 256 * a)
  else if size = 4 then do
    let a ← getU8E buf off
    let b ← getU8E buf (off + 1)
    let c ← getU8E buf (off + 2)
    let d ← getU8E buf (off + 3)
    pure (if le then a + 256 * b + 65536 * c + 16777216 * d
          else d + 256 * c + 65536 * b + 16777216 * a)
  else do
    let a ← getU8E buf off
    let b ← getU8E buf (off + 1)
    let c ← getU8E buf (off + 2)
    let d ← getU8E buf (off + 3)
    let lo := if le then a + 256 * b + 65536 * c + 16777216 * d
              else d + 256 * c + 65536 * b + 16777216 * a
    let a2 ← getU8E buf (off + 4)
    let b2 ← getU8E buf (off + 5)
    let c2 ← getU8E buf (off + 6)
    let d2 ← getU8E buf (off + 7)
    let hi := if le then a2 + 256 * b2 + 65536 * c2 + 16777216 * d2
              else d2 + 256 * c2 + 65536 * b2 + 16777216 * a2
    pure (hi * 4294967296 + lo)

/-- `getString(view, off)`: reads bytes until a NUL terminator; running past
the end of the buffer is a JS `RangeError`. -/
def getStringE (buf : List Nat) (off : Nat) : Except ElfError String :=
  let tail := buf.drop off
  if tail.any (fun b => b = 0) then
    .ok (bytesToString (tail.takeWhile (fun b => b ≠ 0)))
  else
    .error .outOfRange

/-- The `eh` record built by `parseELF`. -/
structure ElfHeader where
  cls : String
  data : String
  entry : Nat
  phoff : Nat
  shoff : Nat
  phentsz : Nat
  phnum : Nat
  shentsz : Nat
  shnum : Nat
  shstrndx : Nat
deriving DecidableEq, Repr

/-- A program header as parsed by `parseELF`. -/
structure ProgramHeader where
  type : Nat
  flags : Nat
  offset : Nat
  vaddr : Nat
  filesz : Nat
  memsz : Nat
  align : Nat
deriving DecidableEq, Repr

/-- A section header as parsed by `parseELF`, with the resolved `name`. -/
structure ElfSection where
  nameOff : Nat
  type : Nat
  flags : Nat
  addr : Nat
  offset : Nat
  size : Nat
  link : Nat
  info : Nat
  addralign : Nat
  entsize : Nat
  name : String
deriving DecidableEq, Repr

/-- The structured result of `parseELF`. -/
structure ElfImage where
  elfHeader : ElfHeader
  programHeaders : List ProgramHeader
  sectionHeaders : List ElfSection
deriving DecidableEq, Repr

/-- The magic-byte scan of `parseELF`:
`[0x7F,0x45,0x4C,0x46].some((v,i)=>view.getUint8(i)!==v)` — `some`
short-circuits, so a mismatch at byte `i` is reported as `notElf` without
touching later bytes, while a buffer too short to read byte `i` raises the
`RangeError` first. -/
def checkMagic (buf : List Nat) : Except ElfError Unit := do
  let b0 ← getU8E buf 0
  if b0 ≠ 0x7F then .error .notElf else
  let b1 ← getU8E buf 1
  if b1 ≠ 0x45 then .error .notElf else
  let b2 ← getU8E buf 2
  if b2 ≠ 0x4C then .error .notElf else
  let b3 ← getU8E buf 3
  if b3 ≠ 0x46 then .error .notElf else
  pure ()

/-- One program header, read exactly as in the source's loop body. -/
def parseProgramHeader (buf : List Nat) (is32 le : Bool) (off : Nat) :
    Except ElfError ProgramHeader := do
  let ptrSize := if is32 then 4 else 8
  let type ← readUintE buf off 4 le
  let flags ← if is32 then readUintE buf (off + 24) 4 le
              else readUintE buf (off + 4) 4 le
  let offset ← readUintE buf (off + (if is32 then 4 else 8)) ptrSize le
  let vaddr ← readUintE buf (off + (if is32 then 8 else 16)) ptrSize le
  let filesz ← readUintE buf (off + (if is32 then 16 else 32)) ptrSize le
  let memsz ← readUintE buf (off + (if is32 then 20 else 40)) ptrSize le
  let align ← readUintE buf (off + (if is32 then 28 else 48)) ptrSize le
  pure ⟨type, flags, offset, vaddr, filesz, memsz, align⟩

/-- One section header (name not yet resolved), as in the source's loop. -/
def parseSectionHeader (buf : List Nat) (is32 le : Bool) (off : Nat) :
    Except ElfError ElfSection := do
  let ptr4 := is32
  let nameOff ← readUintE buf off 4 le
  let type ← readUintE buf (off + 4) 4 le
  let flags ← if ptr4 then readUintE buf (off + 8) 4 le
              else readUintE buf (off + 8) 8 le
  let addr ← if ptr4 then readUintE buf (off + 12) 4 le
             else readUintE buf (off + 16) 8 le
  let offset ← if ptr4 then readUintE buf (off + 16) 4 le
               else readUintE buf (off + 24) 8 le
  let size ← if ptr4 then readUintE buf (off + 20) 4 le
             else readUintE buf (off + 32) 8 le
  let link ← readUintE buf (off + (if ptr4 then 24 else 40)) 4 le
  let info ← readUintE buf (off + (if ptr4 then 28 else 44)) 4 le
  let addralign ← if ptr4 then readUintE buf (off + 32) 4 le
                  else readUintE buf (off + 48) 8 le
  let entsize ← if ptr4 then readUintE buf (off + 36) 4 le
                else readUintE buf (off + 56) 8 le
  pure ⟨nameOff, type, flags, addr, offset, size, link, info, addralign,
        entsize, ""⟩

/-- `parseELF(buf)` (lines 1137-1180): magic check, header fields from the
class/encoding bytes 4 and 5, program- and section-header tables, then
section-name resolution through the `shstrndx` string-table section. -/
def parseELF (buf : List Nat) : Except ElfError ElfImage := do
  checkMagic buf
  let b4 ← getU8E buf 4
  let is32 := b4 = 1
  let b5 ← getU8E buf 5
  let le := b5 = 1
  let ptrSize := if is32 then 4 else 8
  let entry ← readUintE buf 24 ptrSize le
  let phoff ← readUintE buf (if is32 then 28 else 32) ptrSize le
  let shoff ← readUintE buf (if is32 then 32 else 40) ptrSize le
  let phentsz ← readUintE buf (if is32 then 42 else 54) 2 le
  let phnum ← readUintE buf (if is32 then 44 else 56) 2 le
  let shentsz ← readUintE buf (if is32 then 46 else 58) 2 le
  let shnum ← readUintE buf (if is32 then 48 else 60) 2 le
  let shstrndx ← readUintE buf (if is32 then 50 else 62) 2 le
  let eh : ElfHeader :=
    ⟨if is32 then "ELF32" else "ELF64", if le then "little" else "big",
     entry, phoff, shoff, phentsz, phnum, shentsz, shnum, shstrndx⟩
  let ph ← (List.range phnum).mapM
    (fun i => parseProgramHeader buf is32 le (phoff + i * phentsz))
  let shRaw ← (List.range shnum).mapM
    (fun i => parseSectionHeader buf is32 le (shoff + i * shentsz))
  match shRaw.get? shstrndx with
  | none => .error .outOfRange
  | some strsh =>
    let sh ← shRaw.mapM (fun s => do
      let nm ← getStringE buf (strsh.offset + s.nameOff)
      pure { s with name := nm })
    pure ⟨eh, ph, sh⟩

/-- The first four bytes equal the ELF signature `0x7F 'E' 'L' 'F'`. -/
def magicMatches (buf : List Nat) : Prop :=
  buf.take 4 = [0x7F, 0x45, 0x4C, 0x46]

instance (buf : List Nat) : Decidable (magicMatches buf) := by
  unfold magicMatches; infer_instance

/-! ## Symbol & Boundary Resolver
(`extractFunctionSymbols`, lines 930-1020, and
`detectFunctionsFromAssembly`, lines 1023-1078) -/

/-- A decoded symbol-table entry: the fields the source reads
(`nameOffset` resolved through the string table, `value`, and the low
nibble of the `info` byte, i.e. `ST_TYPE`). -/
structure SymEntry where
  name : String
  value : Nat
  symType : Nat
deriving DecidableEq, Repr

/-- A function record as produced by the resolver
(`{name, address, offset}`). -/
structure FuncSym where
  name : String
  address : Nat
  offset : Nat
deriving DecidableEq, Repr

/-- An instruction record as returned by the Capstone disassembler oracle
(`{address, mnemonic, op_str}`; the core never decodes opcodes itself). -/
structure Insn where
  address : Nat
  mnemonic : String
  op_str : String
deriving DecidableEq, Repr

/-- A Capstone oracle: `disasm.disasm(bytes, baseAddress)`.  The spec
requires it to be deterministic for identical inputs, which a function
models directly. -/
abbrev Capstone := List Nat → Nat → List Insn

/-- Symbol-name lookup in a string-table slice: if `nameOffset` is inside
the slice, read characters up to a NUL or the end of the slice (plain
`Uint8Array` indexing never throws); otherwise the name stays empty. -/
def symbolNameAt (strtabData : List Nat) (nameOffset : Nat) : String :=
  if nameOffset < strtabData.length then
    bytesToString ((strtabData.drop nameOffset).takeWhile (fun b => b ≠ 0))
  else ""

/-- Decode the `i`-th symbol entry.  The source builds a `DataView` on the
*whole* buffer at `symtab.offset + i*entrySize` (24 bytes for ELF64, 16 for
ELF32), so the reads are absolute and bounded only by the buffer; a read
past the buffer end is a `RangeError` (`none`). -/
def decodeSymEntry (buf : List Nat) (symtabOff : Nat) (strtabData : List Nat)
    (is64 : Bool) (i : Nat) : Option SymEntry := do
  let symOffset := symtabOff + i * (if is64 then 24 else 16)
  let nameOffset ← readU32 buf symOffset
  let value ← if is64 then readU64 buf (symOffset + 8)
              else readU32 buf (symOffset + 4)
  let info ← readU8 buf (symOffset + (if is64 then 4 else 12))
  pure ⟨symbolNameAt strtabData nameOffset, value, info % 16⟩

/-- The address heuristic of `extractFunctionSymbols`: a raw value below
`0x1000` looks like an intra-section offset and is rebased onto the text
load address; larger values are kept as already-linked addresses. -/
def mkFuncSym (textBaseAddr : Nat) (e : SymEntry) : FuncSym :=
  ⟨e.name, if e.value < 0x1000 then textBaseAddr + e.value else e.value,
   e.value⟩

/-- The symbol-collection loop of `extractFunctionSymbols`: walk `remaining`
entries starting at index `i`, keeping function symbols
(`symbolName && symbolType === 2 && value >= 0`; the value test is vacuous
on unsigned reads).  A failed read is the JS exception caught by the
surrounding `try`: the entries pushed so far survive and the `Bool` result
records that the loop did not complete (so the sort is skipped). -/
def symtabScanGo (buf : List Nat) (symtabOff : Nat) (strtabData : List Nat)
    (is64 : Bool) (textBaseAddr : Nat) : Nat → Nat → List FuncSym × Bool
  | _, 0 => ([], true)
  | i, r + 1 =>
    match decodeSymEntry buf symtabOff strtabData is64 i with
    | none => ([], false)
    | some e =>
      let rest := symtabScanGo buf symtabOff strtabData is64 textBaseAddr
        (i + 1) r
      (if e.name ≠ "" ∧ e.symType = 2 then mkFuncSym textBaseAddr e :: rest.1
       else rest.1, rest.2)

/-- The primary symbol-table path of `extractFunctionSymbols`: slice the
two tables out of the buffer (`new Uint8Array(buffer, offset, size)` throws
when the slice overruns the buffer — the caught-exception case), then run
the collection loop over `size / entrySize` entries. -/
def symtabScan (buf : List Nat) (symtab strtab : ElfSection) (is64 : Bool)
    (textBaseAddr : Nat) : List FuncSym × Bool :=
  if symtab.offset + symtab.size ≤ buf.length ∧
     strtab.offset + strtab.size ≤ buf.length then
    symtabScanGo buf symtab.offset ((buf.drop strtab.offset).take strtab.size)
      is64 textBaseAddr 0 (symtab.size / (if is64 then 24 else 16))
  else ([], false)

/-- The relation the source's `functions.sort((a,b)=>a.address-b.address)`
sorts by. -/
def addrLE (a b : FuncSym) : Prop := a.address ≤ b.address

instance : DecidableRel addrLE := fun a b => Nat.decLe a.address b.address

instance : IsTotal FuncSym addrLE := ⟨fun a b => Nat.le_total a.address b.address⟩

instance : IsTrans FuncSym addrLE := ⟨fun _ _ _ h1 h2 => Nat.le_trans h1 h2⟩

/-- Stable ascending sort by address (JS `Array.prototype.sort` with the
numeric comparator). -/
def sortByAddress (fns : List FuncSym) : List FuncSym :=
  List.insertionSort addrLE fns

/-- The prologue test of the fallback detector: `push rbp`/`push ebp`
immediately followed by `mov rbp, rsp`/`mov ebp, esp`. -/
def isProloguePair (insn nxt : Insn) : Bool :=
  insn.mnemonic == "push" &&
  (insn.op_str == "rbp" || insn.op_str == "ebp") &&
  nxt.mnemonic == "mov" &&
  (nxt.op_str == "rbp, rsp" || nxt.op_str == "ebp, esp")

/-- The scan loop of `detectFunctionsFromAssembly`: each prologue match
opens a function `func_<n>` at the matching instruction's address, with
`offset = address - textBaseAddr`.  The last instruction cannot match (the
source requires `i + 1 < instructions.length`). -/
def scanProloguesGo (textBaseAddr : Nat) : List Insn → Nat → List FuncSym
  | [], _ => []
  | _ :: [], _ => []
  | insn :: nxt :: rest, functionIndex =>
    if isProloguePair insn nxt then
      ⟨"func_" ++ toString (functionIndex + 1), insn.address,
       insn.address - textBaseAddr⟩ ::
        scanProloguesGo textBaseAddr (nxt :: rest) (functionIndex + 1)
    else scanProloguesGo textBaseAddr (nxt :: rest) functionIndex

/-- `detectFunctionsFromAssembly(parsed, textBaseAddr)`: find `.text`,
disassemble its bytes with Capstone and scan for prologues.  A missing or
empty `.text`, or a slice overrunning the buffer (caught `RangeError`),
yields the empty list. -/
def detectFunctionsFromAssembly (buf : List Nat) (shs : List ElfSection)
    (textBaseAddr : Nat) (capstone : Capstone) : List FuncSym :=
  match shs.find? (fun sh => sh.name = ".text") with
  | none => []
  | some ts =>
    if ts.size = 0 then []
    else if ts.offset + ts.size ≤ buf.length then
      scanProloguesGo textBaseAddr
        (capstone ((buf.drop ts.offset).take ts.size) textBaseAddr) 0
    else []

/-- The symbol-table/string-table dispatch at the top of
`extractFunctionSymbols`: prefer `.symtab`/`.strtab`; only when `.symtab`
is absent fall back to `.dynsym`/`.dynstr`. -/
def resolveSymtabSections (shs : List ElfSection) :
    Option ElfSection × Option ElfSection :=
  match shs.find? (fun sh => sh.name = ".symtab") with
  | some s => (some s, shs.find? (fun sh => sh.name = ".strtab"))
  | none => (shs.find? (fun sh => sh.name = ".dynsym"),
             shs.find? (fun sh => sh.name = ".dynstr"))

/-- `extractFunctionSymbols(parsed, textBaseAddr)` (lines 930-1020).  Note
the early `return functions` when no symbol/string table exists or the
table is empty: it leaves the function *before* the pattern-detection
dispatch at line 1013, so the fallback only runs when a (nonempty) symbol
table is present but produced no function symbols, or after a caught
extraction error. -/
def extractFunctionSymbols (buf : List Nat) (shs : List ElfSection)
    (is64 : Bool) (textBaseAddr : Nat) (capstone : Capstone) : List FuncSym :=
  match resolveSymtabSections shs with
  | (some symtab, some strtab) =>
    if symtab.size = 0 then []
    else
      let scanned := symtabScan buf symtab strtab is64 textBaseAddr
      let fns := if scanned.2 then sortByAddress scanned.1 else scanned.1
      if fns = [] then detectFunctionsFromAssembly buf shs textBaseAddr capstone
      else fns
  | _ => []

/-! ## Image Builder
(section mapping and stack setup in the `runUnicorn` click handler,
lines 1411-1525) -/

/-- `Math.floor(a / 0x1000) * 0x1000`. -/
def pageFloor (a : Nat) : Nat := a / 4096 * 4096

/-- `Math.ceil(a / 0x1000) * 0x1000` on a nonnegative integer. -/
def pageCeil (a : Nat) : Nat := (a + 4095) / 4096 * 4096

/-- Object-file detection (line 1412): some allocated (`SHF_ALLOC`)
section with nonzero size carries address zero. -/
def isObjectFileOf (shs : List ElfSection) : Bool :=
  shs.any (fun sh =>
    decide (sh.flags &&& 2 ≠ 0) && decide (0 < sh.size) && decide (sh.addr = 0))

/-- The mutable state of the section-mapping loop: the running base-address
cursor for object files, the `mappedRegions` dedup set (region keys
`alignedAddr-alignedSize`), and the `sectionAddresses` map from section
name to assigned load address. -/
structure MapState where
  baseAddr : Nat
  mappedRegions : List (Nat × Nat)
  sectionAddresses : String → Option Nat

/-- One iteration of `sectionHeaders.forEach` (lines 1430-1482): map
allocated, nonempty sections; object sections at address zero get the
page-aligned cursor and advance it; a zero target or an already-seen
region key is skipped; the engine `mem_map`/`mem_write` calls are external
and modeled as succeeding (on engine failure the source logs and skips —
degraded execution, outside the address computation verified here). -/
def mapOneSection (isObj : Bool) (st : MapState) (sh : ElfSection) : MapState :=
  if sh.flags &&& 2 ≠ 0 ∧ 0 < sh.size then
    let assign :=
      if isObj ∧ sh.addr = 0 then
        let t := pageCeil st.baseAddr
        (t, t + pageCeil sh.size)
      else (sh.addr, st.baseAddr)
    let targetAddr := assign.1
    let base2 := assign.2
    if targetAddr = 0 then { st with baseAddr := base2 }
    else
      let alignedAddr := pageFloor targetAddr
      let alignedSize := max 4096 (pageCeil sh.size)
      if (alignedAddr, alignedSize) ∈ st.mappedRegions then
        { st with baseAddr := base2 }
      else
        { baseAddr := base2,
          mappedRegions := st.mappedRegions ++ [(alignedAddr, alignedSize)],
          sectionAddresses := fun n =>
            if n = sh.name then some targetAddr else st.sectionAddresses n }
  else st

/-- The whole mapping pass, starting from the dynamic object-file base
`0x10000000`. -/
def mapAllSections (isObj : Bool) (shs : List ElfSection) : MapState :=
  shs.foldl (mapOneSection isObj) ⟨0x10000000, [], fun _ => none⟩

/-- The 64 KiB stack size (`STACK_SIZE = 0x10000`). -/
def stackSizeConst : Nat := 0x10000

/-- One step of the executable-path fold over sections computing
`highestAddr` (lines 1493-1501). -/
def sectionEndFold (h : Nat) (sh : ElfSection) : Nat :=
  if sh.flags &&& 2 ≠ 0 ∧ 0 < sh.size ∧ 0 < sh.addr ∧ h < sh.addr + sh.size
  then sh.addr + sh.size else h

/-- The executable-path fold over sections computing `highestAddr`
(lines 1493-1501). -/
def highestSectionEnd (shs : List ElfSection) : Nat :=
  shs.foldl sectionEndFold 0

/-- One step of the executable-path fold over `PT_LOAD` program headers
(lines 1504-1511). -/
def segmentEndFold (h : Nat) (ph : ProgramHeader) : Nat :=
  if ph.type = 1 ∧ 0 < ph.memsz ∧ h < ph.vaddr + ph.memsz
  then ph.vaddr + ph.memsz else h

/-- The executable-path fold over `PT_LOAD` program headers
(lines 1504-1511), continuing from the section maximum. -/
def highestSegmentEnd (phs : List ProgramHeader) (h0 : Nat) : Nat :=
  phs.foldl segmentEndFold h0

/-- `STACK_ADDR` selection (lines 1486-1515): for object files a fixed
1 MiB offset above the final base cursor; for executables a page-aligned
address 1 MiB past the highest section/segment end. -/
def stackAddrOf (isObj : Bool) (shs : List ElfSection)
    (phs : List ProgramHeader) (finalBase : Nat) : Nat :=
  if isObj then finalBase + 0x100000
  else pageCeil (highestSegmentEnd phs (highestSectionEnd shs) + 0x100000)

/-! ## Relocation Resolver
(relocation processing in the `runUnicorn` click handler,
lines 1671-1767, and the function-map construction, lines 1578-1624) -/

/-- Byte-addressed memory as written through `engine.mem_write`. -/
def writeBytes : (Nat → Nat) → Nat → List Nat → Nat → Nat
  | mem, _, [] => mem
  | mem, addr, b :: rest =>
    writeBytes (fun x => if x = addr then b else mem x) (addr + 1) rest

/-- Read `n` consecutive bytes (`engine.mem_read(addr, n)`). -/
def readBytes (mem : Nat → Nat) (addr n : Nat) : List Nat :=
  (List.range n).map (fun k => mem (addr + k))

/-- The function-address map built from the symbol table before relocation
processing (lines 1589-1624): every function symbol (`STT_FUNC`, nonempty
name) maps to `sectionAddresses.get('.text') + value`; a later entry with
the same name overwrites (`Map.set`). -/
def buildFunctionMap (textAddr : Nat) (entries : List SymEntry) :
    String → Option Nat :=
  entries.foldl (fun m e =>
    if e.name ≠ "" ∧ e.symType = 2 then
      fun n => if n = e.name then some (textAddr + e.value) else m n
    else m) (fun _ => none)

/-- Patch one relocation entry (lines 1730-1762): entries whose resolved
symbol name is empty or absent from the function map are skipped with a
diagnostic; types 4 (`R_X86_64_PLT32`) and 2 (`R_X86_64_PC32`) store the
little-endian signed 32-bit value `target - (patchAddr + 4)`; type 10
(`R_X86_64_32`) stores the target address as an unsigned 32-bit value;
every other type is logged as unsupported and leaves memory untouched. -/
def processRelocation (mem : Nat → Nat) (functionMap : String → Option Nat)
    (textAddr : Nat) (symbolName : String) (offset relocType : Nat) :
    Nat → Nat :=
  if symbolName ≠ "" then
    match functionMap symbolName with
    | some targetAddr =>
      let patchAddr := textAddr + offset
      if relocType = 4 then
        writeBytes mem patchAddr
          (encodeInt32LE ((targetAddr : Int) - ((patchAddr : Int) + 4)))
      else if relocType = 2 then
        writeBytes mem patchAddr
          (encodeInt32LE ((targetAddr : Int) - ((patchAddr : Int) + 4)))
      else if relocType = 10 then
        writeBytes mem patchAddr (encodeInt32LE (targetAddr : Int))
      else mem
    | none => mem
  else mem

/-! ## Execution Controller (`class UnicornDebugger`, lines 64-351) -/

/-- The engine-owned register file visible to the controller: the program
counter (`RIP`/`EIP`) and the accumulator (`RAX`/`EAX`). -/
structure EngineState where
  pc : Nat
  rax : Nat
deriving DecidableEq, Repr

/-- Controller state: the fields of `UnicornDebugger` the step/run/reset
logic touches.  Trace records keep `(address, post-step accumulator)`. -/
structure Debugger where
  entryPoint : Nat
  currentAddress : Nat
  breakpoints : List Nat
  isRunning : Bool
  isPaused : Bool
  executionTrace : List (Nat × Nat)
  lastLoggedAddress : Option Nat
  executionCount : Nat
deriving DecidableEq, Repr

/-- The constructor (lines 64-88): fresh empty breakpoint set and trace,
current address and engine program counter at the entry point. -/
def initDebugger (entryPoint : Nat) : Debugger :=
  ⟨entryPoint, entryPoint, [], false, false, [], none, 0⟩

/-- `addBreakpoint` (line 539): `Set.add`. -/
def addBreakpoint (d : Debugger) (address : Nat) : Debugger :=
  if address ∈ d.breakpoints then d
  else { d with breakpoints := d.breakpoints ++ [address] }

/-- `reset()` (lines 331-351): restore the program counter to the original
entry point (both in the controller and in the engine), clear the trace,
the instruction counter, the last-logged marker and the run/pause flags.
The breakpoint set is not touched. -/
def reset (d : Debugger) (e : EngineState) : Debugger × EngineState :=
  ({ d with currentAddress := d.entryPoint, executionTrace := [],
            lastLoggedAddress := none, isRunning := false, isPaused := false,
            executionCount := 0 },
   { e with pc := d.entryPoint })

/-- What the per-instruction hook reports for a stop. -/
inductive HookOutcome where
  | proceed
  | breakpointHit
  | programCompleted
deriving DecidableEq, Repr

/-- The `HOOK_CODE` callback (lines 92-120).  `memRead1` is the engine's
`mem_read(address, 1)` (fallible).  On a breakpoint the hook pauses the
controller and returns `false` to the engine (modeled as the `Bool`
stop signal `true`); it then inspects the byte at the address and
special-cases the `HLT` opcode `0xF4` as clean program completion.  The
re-log guard reproduces the JS truthiness test
`!this.lastLoggedAddress || this.lastLoggedAddress !== address`
(a recorded address `0` counts as unset). -/
def codeHook (memRead1 : Nat → Option Nat) (d : Debugger) (address : Nat) :
    Debugger × Bool × HookOutcome :=
  let relog := match d.lastLoggedAddress with
    | none => true
    | some a => a = 0 ∨ a ≠ address
  let d1 := { d with currentAddress := address,
                     lastLoggedAddress :=
                       if relog then some address else d.lastLoggedAddress }
  if address ∈ d1.breakpoints then
    let d2 := { d1 with isPaused := true, isRunning := false }
    let outcome := match memRead1 address with
      | some b => if b = 0xF4 then HookOutcome.programCompleted
                  else HookOutcome.breakpointHit
      | none => HookOutcome.breakpointHit
    (d2, true, outcome)
  else (d1, false, HookOutcome.proceed)

/-- The engine-side step errors the controller distinguishes
(`UC_ERR_INSN_INVALID`, `UC_ERR_FETCH_UNMAPPED`, anything else). -/
inductive StepError where
  | insnInvalid
  | fetchUnmapped
  | otherError
deriving DecidableEq, Repr

/-- What a `stepInstruction()` call reports: a normal step, or a fault with
the faulting program counter and the best-effort accumulator value read in
the error handler. -/
inductive StepOutcome where
  | stepped
  | fault (err : StepError) (addr : Nat) (returnValue : Nat)
deriving DecidableEq, Repr

/-- An emulation-engine oracle for one bounded `emu_start` call together
with the 16-byte fetch and disassembly preceding it: on success it yields
the post-step engine state and whether a hook paused the controller during
the run; on failure the engine state is unchanged and the error is
thrown to the controller's `catch`. -/
abbrev EmuStart := EngineState → Except StepError (EngineState × Bool)

/-- `stepInstruction()` (lines 128-204).  The pause flag is cleared up
front; a successful step updates the current address from the engine's
program counter, appends the executed instruction with the *post*-execution
accumulator to the trace and clears the last-logged marker; a thrown
engine error is caught, the faulting program counter and a best-effort
accumulator read are reported, and the controller leaves the running
state (`isPaused := true`, `isRunning := false`). -/
def stepInstruction (emuStart : EmuStart) (d : Debugger) (e : EngineState) :
    Debugger × EngineState × StepOutcome :=
  let d0 := { d with isPaused := false }
  match emuStart e with
  | .ok (e2, hookPaused) =>
    ({ d0 with currentAddress := e2.pc,
               isPaused := hookPaused,
               isRunning := if hookPaused then false else d0.isRunning,
               executionTrace := d0.executionTrace ++ [(e.pc, e2.rax)],
               lastLoggedAddress := none },
     e2, StepOutcome.stepped)
  | .error err =>
    ({ d0 with isPaused := true, isRunning := false }, e,
     StepOutcome.fault err e.pc e.rax)

/-- `stepInstruction` never touches the run loop's instruction counter. -/
theorem stepInstruction_count (emuStart : EmuStart) (d : Debugger)
    (e : EngineState) :
    (stepInstruction emuStart d e).1.executionCount = d.executionCount := by
  unfold stepInstruction
  cases emuStart e with
  | ok p => rfl
  | error err => rfl

/-- `String.prototype.toLowerCase` on the ASCII mnemonics Capstone
produces. -/
def toLowerAscii (s : String) : String :=
  String.mk (s.data.map (fun c =>
    if 65 ≤ c.toNat ∧ c.toNat ≤ 90 then Char.ofNat (c.toNat + 32) else c))

/-- `isHaltInstruction(address)` (lines 281-294): read 16 bytes, decode one
instruction, compare the lower-cased mnemonic with `hlt`; any read or
decode failure counts as "not halt". -/
def isHaltInstruction (memRead16 : Nat → Option (List Nat))
    (capstone : Capstone) (address : Nat) : Bool :=
  match memRead16 address with
  | none => false
  | some bytes =>
    match (capstone bytes address).head? with
    | some insn => toLowerAscii insn.mnemonic == "hlt"
    | none => false

/-- `stopExecution()` (lines 270-279). -/
def stopExecution (d : Debugger) : Debugger :=
  { d with isRunning := false, isPaused := true }

/-- Why a run loop returned. -/
inductive StopReason where
  | alreadyRunning
  | externalStop
  | limitReached
  | programCompleted
deriving DecidableEq, Repr

/-- Result of a run loop: number of `stepInstruction` calls performed,
final controller and engine state, and the reason for stopping. -/
structure RunResult where
  steps : Nat
  dbg : Debugger
  eng : EngineState
  reason : StopReason
deriving Repr

/-- The fixed runaway-loop ceiling (`maxInstructions = 10000`). -/
def maxInstructionsLimit : Nat := 10000

/-- `continueExecution()` (lines 226-268), with the cooperative
`setTimeout` re-scheduling folded into direct recursion: return if the
run was stopped or paused; stop with the limit reason once the instruction
counter reaches the ceiling; stop with the completion reason on a `hlt`
at the current program counter; otherwise perform exactly one
`stepInstruction`, count it, and re-schedule. -/
def continueExecution (emuStart : EmuStart) (memRead16 : Nat → Option (List Nat))
    (capstone : Capstone) (d : Debugger) (e : EngineState) : RunResult :=
  if ¬ d.isRunning ∨ d.isPaused then ⟨0, d, e, StopReason.externalStop⟩
  else if _h2 : maxInstructionsLimit ≤ d.executionCount then
    ⟨0, stopExecution d, e, StopReason.limitReached⟩
  else if isHaltInstruction memRead16 capstone e.pc then
    ⟨0, stopExecution d, e, StopReason.programCompleted⟩
  else
    let one := stepInstruction emuStart d e
    let d2 := { one.1 with executionCount := one.1.executionCount + 1 }
    let rest := continueExecution emuStart memRead16 capstone d2 one.2.1
    ⟨rest.steps + 1, rest.dbg, rest.eng, rest.reason⟩
termination_by maxInstructionsLimit - d.executionCount
decreasing_by
  simp only [stepInstruction_count]
  omega

/-- `runUntilHalt()` (lines 206-224): refuse re-entry while running,
otherwise reset the instruction counter, raise the running flag and enter
the loop. -/
def runUntilHalt (emuStart : EmuStart) (memRead16 : Nat → Option (List Nat))
    (capstone : Capstone) (d : Debugger) (e : EngineState) : RunResult :=
  if d.isRunning then ⟨0, d, e, StopReason.alreadyRunning⟩
  else continueExecution emuStart memRead16 capstone
    { d with isRunning := true, isPaused := false, executionCount := 0 } e

/-! ## Entry point and exit trampoline for object files
(lines 1535-1572, 1648-1663, 1770-1807 and 1848-1852) -/

/-- The `main` scan over the symbol table (lines 1548-1572): the first
entry named `main` wins (`break`), whatever its type. -/
def findMainValue (entries : List SymEntry) : Option Nat :=
  (entries.find? (fun s => s.name == "main")).map (fun s => s.value)

/-- Entry-point selection for object files (lines 1648-1663): `main`'s
text-relative offset added to the text load address when found and
strictly positive (JS truthiness makes `mainAddr = 0` fall through),
otherwise the start of the mapped text section. -/
def objectEntryPoint (textAddr : Nat) (entries : List SymEntry) : Nat :=
  match findMainValue entries with
  | some v => if 0 < v then textAddr + v else textAddr
  | none => textAddr

/-- Everything the trampoline setup decides: the synthetic exit address,
the memory after the `HLT` write and the stack pushes, the pushed
synthetic return address, the stack pointer after the pushes, whether the
`argc`/`argv` environment was initialized, and the breakpoints installed
afterwards (lines 1848-1852). -/
structure TrampolineSetup where
  exitAddr : Option Nat
  mem : Nat → Nat
  pushedReturnValue : Option Nat
  spAfter : Nat
  argcArgvInitialized : Bool
  breakpoints : List Nat

/-- The guarded trampoline construction (lines 1770-1807): only for an
object file whose `main` was found at a strictly positive offset.  The
exit page sits one 4 KiB gap past the stack; a single `HLT` byte `0xF4` is
written there; `argc`/`argv` are zeroed (registers on 64-bit, two stack
slots on 32-bit); the exit address is pushed as the synthetic return
address; finally a breakpoint is added at the exit address. -/
def setupExitTrampoline (isObjectFile is64 : Bool) (entries : List SymEntry)
    (stackAddr stackSize : Nat) (mem : Nat → Nat) (sp : Nat) :
    TrampolineSetup :=
  let mainOk := match findMainValue entries with
    | some v => decide (0 < v)
    | none => false
  if isObjectFile && mainOk then
    let exitAddr := stackAddr + stackSize + 0x1000
    let mem1 := writeBytes mem exitAddr [0xF4]
    if is64 then
      -- argc/argv through RDI/RSI, 8-byte return-address push
      let mem2 := writeBytes mem1 (sp - 8) (leBytes 8 exitAddr)
      ⟨some exitAddr, mem2, some exitAddr, sp - 8, true, [exitAddr]⟩
    else
      -- argv and argc pushed as two 4-byte zero slots, then the return address
      let mem2 := writeBytes mem1 (sp - 4) [0, 0, 0, 0]
      let mem3 := writeBytes mem2 (sp - 8) [0, 0, 0, 0]
      let sp0 := sp - 8
      let mem4 := writeBytes mem3 (sp0 - 4) (leBytes 4 exitAddr)
      ⟨some exitAddr, mem4, some exitAddr, sp0 - 4, true, [exitAddr]⟩
  else ⟨none, mem, none, sp, false, []⟩

/-- The load pipeline as exercised by the UI flow: a parse failure aborts
before any section mapping or stack placement is attempted. -/
def loadBuffer (buf : List Nat) : Except ElfError (MapState × Nat) :=
  match parseELF buf with
  | .error e => .error e
  | .ok img =>
    let isObj := isObjectFileOf img.sectionHeaders
    let st := mapAllSections isObj img.sectionHeaders
    .ok (st, stackAddrOf isObj img.sectionHeaders img.programHeaders st.baseAddr)

/-! ## Memory-write lemmas -/

theorem writeBytes_apply_notin : ∀ (bs : List Nat) (mem : Nat → Nat)
    (addr a : Nat), a < addr ∨ addr + bs.length ≤ a →
    writeBytes mem addr bs a = mem a := by
  intro bs
  induction bs with
  | nil => intro mem addr a _; rfl
  | cons b rest ih =>
    intro mem addr a h
    simp only [List.length_cons] at h
    show writeBytes (fun x => if x = addr then b else mem x) (addr + 1) rest a
        = mem a
    rw [ih]
    · have hne : a ≠ addr := by omega
      simp [hne]
    · omega

theorem readBytes_succ (mem : Nat → Nat) (addr n : Nat) :
    readBytes mem addr (n + 1) = mem addr :: readBytes mem (addr + 1) n := by
  unfold readBytes
  rw [List.range_succ_eq_map]
  simp only [List.map_cons, Nat.add_zero, List.map_map]
  refine congrArg _ ?_
  refine List.map_congr_left ?_
  intro k _
  simp only [Function.comp_apply]
  refine congrArg mem ?_
  omega

theorem writeBytes_apply_head (mem : Nat → Nat) (addr b : Nat)
    (rest : List Nat) : writeBytes mem addr (b :: rest) addr = b := by
  show writeBytes (fun x => if x = addr then b else mem x) (addr + 1) rest
      addr = b
  rw [writeBytes_apply_notin rest _ (addr + 1) addr (by omega)]
  simp

theorem readBytes_writeBytes : ∀ (bs : List Nat) (mem : Nat → Nat) (addr : Nat),
    readBytes (writeBytes mem addr bs) addr bs.length = bs := by
  intro bs
  induction bs with
  | nil => intro mem addr; rfl
  | cons b rest ih =>
    intro mem addr
    rw [List.length_cons, readBytes_succ]
    have hhead : writeBytes mem addr (b :: rest) addr = b :=
      writeBytes_apply_head mem addr b rest
    have htail :
        readBytes (writeBytes mem addr (b :: rest)) (addr + 1) rest.length
          = rest := by
      show readBytes
        (writeBytes (fun x => if x = addr then b else mem x) (addr + 1) rest)
        (addr + 1) rest.length = rest
      exact ih _ (addr + 1)
    rw [hhead, htail]

theorem leBytes_length (n v : Nat) : (leBytes n v).length = n := by
  simp [leBytes]

theorem encodeInt32LE_length (x : Int) : (encodeInt32LE x).length = 4 := by
  simp [encodeInt32LE, leBytes]

/-! ## C1: relocation patch formulas -/

theorem buildFunctionMap_foldl_empty_name (textAddr : Nat) :
    ∀ (entries : List SymEntry) (m : String → Option Nat), m "" = none →
    List.foldl (fun m e =>
      if e.name ≠ "" ∧ e.symType = 2 then
        fun n => if n = e.name then some (textAddr + e.value) else m n
      else m) m entries "" = none := by
  intro entries
  induction entries with
  | nil => intro m hm; exact hm
  | cons e rest ih =>
    intro m hm
    refine ih _ ?_
    by_cases hc : e.name ≠ "" ∧ e.symType = 2
    · have : ("" : String) ≠ e.name := fun h => hc.1 h.symm
      simp [hc, this, hm]
    · simp [hc, hm]

/-- The function map built before relocation processing never contains the
empty name: every inserted symbol passed the `symbolName &&` guard. -/
theorem buildFunctionMap_empty_name (textAddr : Nat) (entries : List SymEntry) :
    buildFunctionMap textAddr entries "" = none := by
  unfold buildFunctionMap
  exact buildFunctionMap_foldl_empty_name textAddr entries _ rfl

/-- C1: for every relocation entry whose referenced symbol name resolves in
the function-address table, the relative-call types 4 (`PLT32`) and
2 (`PC32`) leave exactly the little-endian signed 32-bit encoding of
`target - (patchAddr + 4)` in the four bytes at
`patchAddr = textBase + offset`; the absolute type 10 leaves the
little-endian unsigned 32-bit encoding of the target address; every other
relocation type leaves the memory image untouched. -/
theorem c1_relocation_formulas (mem : Nat → Nat) (entries : List SymEntry)
    (textAddr : Nat) (symbolName : String) (offset relocType targetAddr : Nat)
    (hmap : buildFunctionMap textAddr entries symbolName = some targetAddr) :
    (relocType = 4 ∨ relocType = 2 →
      readBytes
        (processRelocation mem (buildFunctionMap textAddr entries) textAddr
          symbolName offset relocType) (textAddr + offset) 4
        = encodeInt32LE
            ((targetAddr : Int) - (((textAddr + offset : Nat) : Int) + 4)))
    ∧ (relocType = 10 →
      readBytes
        (processRelocation mem (buildFunctionMap textAddr entries) textAddr
          symbolName offset relocType) (textAddr + offset) 4
        = encodeInt32LE (targetAddr : Int))
    ∧ (relocType ≠ 4 → relocType ≠ 2 → relocType ≠ 10 →
      processRelocation mem (buildFunctionMap textAddr entries) textAddr
        symbolName offset relocType = mem) := by
  have hne : symbolName ≠ "" := by
    intro h
    rw [h, buildFunctionMap_empty_name] at hmap
    exact Option.noConfusion hmap
  have hread : ∀ x : Int,
      readBytes (writeBytes mem (textAddr + offset) (encodeInt32LE x))
        (textAddr + offset) 4 = encodeInt32LE x := by
    intro x
    have h := readBytes_writeBytes (encodeInt32LE x) mem (textAddr + offset)
    rwa [encodeInt32LE_length] at h
  refine ⟨?_, ?_, ?_⟩
  · rintro (h4 | h2)
    · subst h4
      simp only [processRelocation, hne, ne_eq, not_false_eq_true, if_true,
        hmap, if_pos rfl]
      exact hread _
    · subst h2
      simp only [processRelocation, hne, ne_eq, not_false_eq_true, if_true,
        hmap]
      norm_num
      exact hread _
  · intro h10
    subst h10
    simp only [processRelocation, hne, ne_eq, not_false_eq_true, if_true, hmap]
    norm_num
    exact hread _
  · intro h4 h2 h10
    simp only [processRelocation, hne, ne_eq, not_false_eq_true, if_true, hmap,
      if_neg h4, if_neg h2, if_neg h10]

/-- Witness for C1 at a concrete relocation: `add` at text offset 5,
a `PLT32` call site at offset 7, and an unsupported type 9 left alone. -/
theorem c1_witness :
    readBytes
      (processRelocation (fun _ => 0)
        (buildFunctionMap 0x10000000 [⟨"add", 5, 2⟩]) 0x10000000 "add" 7 4)
      (0x10000000 + 7) 4
      = encodeInt32LE
          ((0x10000005 : Int) - (((0x10000000 + 7 : Nat) : Int) + 4))
    ∧ processRelocation (fun _ => 0)
        (buildFunctionMap 0x10000000 [⟨"add", 5, 2⟩]) 0x10000000 "add" 7 9
      = (fun _ => 0) := by
  have hmap : buildFunctionMap 0x10000000 [⟨"add", 5, 2⟩] "add"
      = some 0x10000005 := rfl
  exact ⟨(c1_relocation_formulas (fun _ => 0) [⟨"add", 5, 2⟩] 0x10000000 "add"
            7 4 0x10000005 hmap).1 (Or.inl rfl),
         (c1_relocation_formulas (fun _ => 0) [⟨"add", 5, 2⟩] 0x10000000 "add"
            7 9 0x10000005 hmap).2.2 (by decide) (by decide) (by decide)⟩

/-! ## C7: breakpoint detection inside the per-instruction hook -/

/-- C7: whenever the hook fires at a member of the breakpoint set, it
signals the engine to stop (`return false`) and the controller leaves the
running state; if the byte at the address is the `HLT` opcode `0xF4`, the
stop is reported as clean program completion, otherwise as a plain
breakpoint hit. -/
theorem c7_breakpoint_hook (memRead1 : Nat → Option Nat) (d : Debugger)
    (address : Nat) (hbp : address ∈ d.breakpoints) :
    (codeHook memRead1 d address).2.1 = true
    ∧ (codeHook memRead1 d address).1.isRunning = false
    ∧ (codeHook memRead1 d address).1.isPaused = true
    ∧ (memRead1 address = some 0xF4 →
        (codeHook memRead1 d address).2.2 = HookOutcome.programCompleted)
    ∧ (∀ b, memRead1 address = some b → b ≠ 0xF4 →
        (codeHook memRead1 d address).2.2 = HookOutcome.breakpointHit)
    ∧ (memRead1 address = none →
        (codeHook memRead1 d address).2.2 = HookOutcome.breakpointHit) := by
  unfold codeHook
  simp only [hbp, if_true]
  refine ⟨trivial, trivial, trivial, ?_, ?_, ?_⟩
  · intro h; simp [h]
  · intro b hb hne; simp [hb, hne]
  · intro h; simp [h]

/-- Witness for C7, end-to-end scenario 4: a breakpoint at the synthetic
halt-trampoline address of a `-nostdlib`-style object run reports clean
program completion, not a generic breakpoint hit. -/
theorem c7_witness :
    (codeHook
      (fun a => some ((setupExitTrampoline true true [⟨"main", 5, 2⟩]
        0x10101000 0x10000 (fun _ => 0) 0x10110000).mem a))
      (addBreakpoint (initDebugger 0x10000005) 0x10112000)
      0x10112000).2.2 = HookOutcome.programCompleted
    ∧ (codeHook
      (fun a => some ((setupExitTrampoline true true [⟨"main", 5, 2⟩]
        0x10101000 0x10000 (fun _ => 0) 0x10110000).mem a))
      (addBreakpoint (initDebugger 0x10000005) 0x10112000)
      0x10112000).2.1 = true := by
  have hbp : (0x10112000 : Nat) ∈
      (addBreakpoint (initDebugger 0x10000005) 0x10112000).breakpoints := by
    decide
  have h := c7_breakpoint_hook
    (fun a => some ((setupExitTrampoline true true [⟨"main", 5, 2⟩]
      0x10101000 0x10000 (fun _ => 0) 0x10110000).mem a))
    (addBreakpoint (initDebugger 0x10000005) 0x10112000) 0x10112000 hbp
  exact ⟨h.2.2.2.1 (by decide), h.1⟩

/-! ## C8: fatal step errors -/

/-- C8: a step whose engine call throws an invalid-instruction or
unmapped-fetch error leaves the running state (`isRunning = false`,
`isPaused = true`), reports the faulting program counter together with a
best-effort accumulator read, leaves the engine state unchanged, faults
identically if stepped again without recovery, and is recovered by an
explicit `reset()`, which restores the entry-point program counter. -/
theorem c8_step_fault (emuStart : EmuStart) (d : Debugger) (e : EngineState)
    (err : StepError) (herr : emuStart e = .error err) :
    (stepInstruction emuStart d e).1.isRunning = false
    ∧ (stepInstruction emuStart d e).1.isPaused = true
    ∧ (stepInstruction emuStart d e).2.1 = e
    ∧ (stepInstruction emuStart d e).2.2 = StepOutcome.fault err e.pc e.rax
    ∧ (stepInstruction emuStart (stepInstruction emuStart d e).1 e).2.2
        = StepOutcome.fault err e.pc e.rax
    ∧ (reset (stepInstruction emuStart d e).1 e).1.currentAddress
        = d.entryPoint
    ∧ (reset (stepInstruction emuStart d e).1 e).2.pc = d.entryPoint := by
  unfold stepInstruction reset
  simp [herr]

/-- Witness for C8: a concrete engine that always faults with an invalid
instruction at program counter 7 with accumulator 42. -/
theorem c8_witness :
    (stepInstruction (fun _ => .error StepError.insnInvalid)
      (initDebugger 7) ⟨7, 42⟩).2.2
      = StepOutcome.fault StepError.insnInvalid 7 42
    ∧ (stepInstruction (fun _ => .error StepError.insnInvalid)
      (initDebugger 7) ⟨7, 42⟩).1.isRunning = false
    ∧ (reset (stepInstruction (fun _ => .error StepError.insnInvalid)
      (initDebugger 7) ⟨7, 42⟩).1 ⟨7, 42⟩).2.pc = 7 := by
  have h := c8_step_fault (fun _ => .error StepError.insnInvalid)
    (initDebugger 7) ⟨7, 42⟩ StepError.insnInvalid rfl
  exact ⟨h.2.2.2.1, h.1, h.2.2.2.2.2.2⟩

/-! ## C10: reset clears execution state but keeps breakpoints -/

/-- C10: `reset()` restores the program counter (controller and engine) to
the original entry point and clears the trace, the instruction counter,
the last-logged marker and the running/paused flags, while the breakpoint
set survives unchanged — a breakpoint installed before a reset is still
present afterwards; only constructing a fresh debugger instance starts
with an empty breakpoint set. -/
theorem c10_reset_frame (d : Debugger) (e : EngineState) (a entry : Nat) :
    (reset d e).1.currentAddress = d.entryPoint
    ∧ (reset d e).2.pc = d.entryPoint
    ∧ (reset d e).1.executionTrace = []
    ∧ (reset d e).1.executionCount = 0
    ∧ (reset d e).1.lastLoggedAddress = none
    ∧ (reset d e).1.isRunning = false
    ∧ (reset d e).1.isPaused = false
    ∧ (reset d e).1.breakpoints = d.breakpoints
    ∧ a ∈ (reset (addBreakpoint d a) e).1.breakpoints
    ∧ (initDebugger entry).breakpoints = [] := by
  refine ⟨rfl, rfl, rfl, rfl, rfl, rfl, rfl, rfl, ?_, rfl⟩
  show a ∈ (addBreakpoint d a).breakpoints
  unfold addBreakpoint
  by_cases h : a ∈ d.breakpoints
  · simp [h]
  · simp [h]

/-! ## C3: the ELF magic gate -/

theorem exceptBind_ok {α β : Type} {x : Except ElfError α}
    {f : α → Except ElfError β} {b : β} (h : x >>= f = .ok b) :
    ∃ a, x = .ok a ∧ f a = .ok b := by
  cases x with
  | ok a => exact ⟨a, rfl, h⟩
  | error e => exact absurd h (by simp [Bind.bind, Except.bind])

theorem getU8E_ok {buf : List Nat} {i b : Nat} (h : getU8E buf i = .ok b) :
    buf.get? i = some b := by
  unfold getU8E at h
  cases hg : buf.get? i with
  | some x =>
    rw [hg] at h
    simp only [Except.ok.injEq] at h
    rw [h]
  | none =>
    rw [hg] at h
    exact absurd h (by simp)

theorem checkMagic_ok_iff (buf : List Nat) :
    checkMagic buf = .ok () ↔ magicMatches buf := by
  rcases buf with _ | ⟨b0, _ | ⟨b1, _ | ⟨b2, _ | ⟨b3, rest⟩⟩⟩⟩ <;>
    simp only [checkMagic, getU8E, magicMatches, List.get?, Bind.bind,
      Except.bind, Pure.pure, Except.pure, List.take] <;>
    first
      | (split_ifs <;> simp_all)
      | simp

theorem checkMagic_error_notElf (buf : List Nat) (hlen : 4 ≤ buf.length)
    (hm : ¬ magicMatches buf) : checkMagic buf = .error .notElf := by
  rcases buf with _ | ⟨b0, _ | ⟨b1, _ | ⟨b2, _ | ⟨b3, rest⟩⟩⟩⟩ <;>
    simp only [List.length_nil, List.length_cons] at hlen <;> try omega
  simp only [magicMatches, List.take] at hm
  simp only [checkMagic, getU8E, List.get?, Bind.bind, Except.bind]
  split_ifs <;> simp_all

theorem parseELF_magic_error (buf : List Nat) (e : ElfError)
    (h : checkMagic buf = .error e) : parseELF buf = .error e := by
  unfold parseELF
  rw [h]
  rfl

theorem parseELF_ok_fields (buf : List Nat) (img : ElfImage)
    (h : parseELF buf = .ok img) :
    magicMatches buf
    ∧ (∃ b4, buf.get? 4 = some b4
        ∧ img.elfHeader.cls = if b4 = 1 then "ELF32" else "ELF64")
    ∧ (∃ b5, buf.get? 5 = some b5
        ∧ img.elfHeader.data = if b5 = 1 then "little" else "big") := by
  unfold parseELF at h
  obtain ⟨u, hcm, h⟩ := exceptBind_ok h
  obtain ⟨b4, hb4, h⟩ := exceptBind_ok h
  obtain ⟨b5, hb5, h⟩ := exceptBind_ok h
  obtain ⟨entry, _, h⟩ := exceptBind_ok h
  obtain ⟨phoff, _, h⟩ := exceptBind_ok h
  obtain ⟨shoff, _, h⟩ := exceptBind_ok h
  obtain ⟨phentsz, _, h⟩ := exceptBind_ok h
  obtain ⟨phnum, _, h⟩ := exceptBind_ok h
  obtain ⟨shentsz, _, h⟩ := exceptBind_ok h
  obtain ⟨shnum, _, h⟩ := exceptBind_ok h
  obtain ⟨shstrndx, _, h⟩ := exceptBind_ok h
  obtain ⟨ph, _, h⟩ := exceptBind_ok h
  obtain ⟨shRaw, _, h⟩ := exceptBind_ok h
  refine ⟨?_, ?_⟩
  · cases u
    exact (checkMagic_ok_iff buf).1 hcm
  · have hb4' : buf.get? 4 = some b4 := getU8E_ok hb4
    have hb5' : buf.get? 5 = some b5 := getU8E_ok hb5
    cases hget : shRaw.get? shstrndx with
    | none =>
      rw [hget] at h
      exact absurd h (by simp)
    | some strsh =>
      rw [hget] at h
      obtain ⟨sh, _, h⟩ := exceptBind_ok h
      have himg : img.elfHeader =
          ⟨if b4 = 1 then "ELF32" else "ELF64",
           if b5 = 1 then "little" else "big",
           entry, phoff, shoff, phentsz, phnum, shentsz, shnum, shstrndx⟩ := by
        have := h
        simp only [Pure.pure, Except.pure, Except.ok.injEq] at this
        rw [← this]
      exact ⟨⟨b4, hb4', by rw [himg]⟩, ⟨b5, hb5', by rw [himg]⟩⟩

/-- Counterexample to C3 as stated: the four-byte buffer that is exactly
the ELF signature matches the magic but does *not* produce a structured
`ElfImage` — the parse aborts on the truncated header (JS `RangeError`
reading the class byte). -/
theorem c3_counterexample :
    magicMatches [0x7F, 0x45, 0x4C, 0x46]
    ∧ parseELF [0x7F, 0x45, 0x4C, 0x46] = .error .outOfRange := by
  exact ⟨by decide, rfl⟩

/-- C3 (amended): a buffer whose first four bytes do not equal the ELF
signature always fails to parse — with the explicit not-an-ELF error
whenever all four bytes exist — and the load pipeline then performs no
section mapping; a buffer that parses to an `ElfImage` has the matching
magic, and its class and data-encoding fields are read from header bytes 4
and 5 (the original claim's "produces a structured ElfImage" additionally
requires the header and tables to lie within the buffer). -/
theorem c3_magic_gate (buf : List Nat) :
    (¬ magicMatches buf →
      (∃ e, parseELF buf = .error e) ∧ ∀ r, loadBuffer buf ≠ .ok r)
    ∧ (4 ≤ buf.length → ¬ magicMatches buf →
        parseELF buf = .error .notElf)
    ∧ (∀ img, parseELF buf = .ok img →
        magicMatches buf
        ∧ (∃ b4, buf.get? 4 = some b4
            ∧ img.elfHeader.cls = if b4 = 1 then "ELF32" else "ELF64")
        ∧ (∃ b5, buf.get? 5 = some b5
            ∧ img.elfHeader.data = if b5 = 1 then "little" else "big")) := by
  refine ⟨?_, ?_, parseELF_ok_fields buf⟩
  · intro hm
    have hne : checkMagic buf ≠ .ok () := fun hok =>
      hm ((checkMagic_ok_iff buf).1 hok)
    obtain ⟨e, he⟩ : ∃ e, checkMagic buf = .error e := by
      cases hc : checkMagic buf with
      | ok u => cases u; exact absurd hc hne
      | error e => exact ⟨e, rfl⟩
    have hpe := parseELF_magic_error buf e he
    refine ⟨⟨e, hpe⟩, ?_⟩
    intro r
    unfold loadBuffer
    rw [hpe]
    simp
  · intro hlen hm
    exact parseELF_magic_error buf .notElf (checkMagic_error_notElf buf hlen hm)

/-- A minimal well-formed little-endian ELF32 buffer: empty program-header
table, one string-table section holding a single NUL, `shstrndx = 0`. -/
def c3GoodBuf : List Nat :=
  [0x7F, 0x45, 0x4C, 0x46, 1, 1, 0, 0, 0, 0, 0, 0, 0, 0, 0, 0,
   0, 0, 0, 0, 0, 0, 0, 0,
   0, 0, 0, 0,
   0, 0, 0, 0,
   52, 0, 0, 0,
   0, 0, 0, 0, 0, 0,
   0, 0,
   0, 0,
   40, 0,
   1, 0,
   0, 0,
   0, 0, 0, 0,
   3, 0, 0, 0,
   0, 0, 0, 0,
   0, 0, 0, 0,
   92, 0, 0, 0,
   1, 0, 0, 0,
   0, 0, 0, 0,
   0, 0, 0, 0,
   0, 0, 0, 0,
   0, 0, 0, 0,
   0]

/-- Witness for C3: the minimal well-formed buffer parses with class and
encoding read from bytes 4 and 5, and a magic-mismatching buffer raises
the not-an-ELF error with no section mapping attempted. -/
theorem c3_witness :
    (∃ img, parseELF c3GoodBuf = .ok img ∧ img.elfHeader.cls = "ELF32"
      ∧ img.elfHeader.data = "little")
    ∧ parseELF [0, 0, 0, 0] = .error .notElf
    ∧ (∀ r, loadBuffer [0, 0, 0, 0] ≠ .ok r) := by
  refine ⟨?_, (c3_magic_gate [0, 0, 0, 0]).2.1 (by decide) (by decide),
    ((c3_magic_gate [0, 0, 0, 0]).1 (by decide)).2⟩
  have hconcrete : parseELF c3GoodBuf =
      .ok ⟨⟨"ELF32", "little", 0, 0, 52, 0, 0, 40, 1, 0⟩, [],
           [⟨0, 3, 0, 0, 92, 1, 0, 0, 0, 0, ""⟩]⟩ := by rfl
  obtain ⟨hm, ⟨b4, hb4, hcls⟩, ⟨b5, hb5, hdata⟩⟩ :=
    (c3_magic_gate c3GoodBuf).2.2 _ hconcrete
  have hb4v : b4 = 1 := by
    have h1 : c3GoodBuf.get? 4 = some 1 := by decide
    exact Option.some.inj (hb4.symm.trans h1)
  have hb5v : b5 = 1 := by
    have h1 : c3GoodBuf.get? 5 = some 1 := by decide
    exact Option.some.inj (hb5.symm.trans h1)
  subst hb4v hb5v
  simp only [if_pos rfl] at hcls hdata
  exact ⟨_, hconcrete, hcls, hdata⟩

/-! ## C4: the symbol-table path of the resolver -/

theorem symtabScanGo_mem (buf : List Nat) (symtabOff : Nat)
    (strtabData : List Nat) (is64 : Bool) (textBaseAddr : Nat) :
    ∀ (r i : Nat) (f : FuncSym),
      f ∈ (symtabScanGo buf symtabOff strtabData is64 textBaseAddr i r).1 →
      ∃ j e, i ≤ j ∧ j < i + r
        ∧ decodeSymEntry buf symtabOff strtabData is64 j = some e
        ∧ e.name ≠ "" ∧ e.symType = 2 ∧ f = mkFuncSym textBaseAddr e := by
  intro r
  induction r with
  | zero => intro i f hf; exact absurd hf (by simp [symtabScanGo])
  | succ r ih =>
    intro i f hf
    rw [symtabScanGo] at hf
    cases hd : decodeSymEntry buf symtabOff strtabData is64 i with
    | none => rw [hd] at hf; exact absurd hf (by simp)
    | some e =>
      rw [hd] at hf
      dsimp only at hf
      by_cases hc : e.name ≠ "" ∧ e.symType = 2
      · rw [if_pos hc] at hf
        rcases List.mem_cons.1 hf with hf | hf
        · exact ⟨i, e, Nat.le_refl i, by omega, hd, hc.1, hc.2, hf⟩
        · obtain ⟨j, e2, hle, hlt, hd2, hn, ht, hfe⟩ := ih (i + 1) f hf
          exact ⟨j, e2, by omega, by omega, hd2, hn, ht, hfe⟩
      · rw [if_neg hc] at hf
        obtain ⟨j, e2, hle, hlt, hd2, hn, ht, hfe⟩ := ih (i + 1) f hf
        exact ⟨j, e2, by omega, by omega, hd2, hn, ht, hfe⟩

/-- An element of `mkFuncSym` output satisfies the claimed address
formula. -/
theorem mkFuncSym_formula (textBaseAddr : Nat) (e : SymEntry) :
    (mkFuncSym textBaseAddr e).address =
      if (mkFuncSym textBaseAddr e).offset < 0x1000
      then textBaseAddr + (mkFuncSym textBaseAddr e).offset
      else (mkFuncSym textBaseAddr e).offset := rfl

/-- C4 (amended): when the primary symbol-table path completes and yields
at least one function symbol, the resolver returns exactly the
address-sorted list of those symbols: the result is sorted ascending by
address, every element stems from an `STT_FUNC` entry with a nonempty
name, and every element's address is `loadBias + rawValue` for raw values
below `0x1000` and the raw value itself otherwise.  (As stated the claim
also covered the fallback detector's output, which instead always uses
`loadBias + offset`; see the counterexample.) -/
theorem c4_symbol_path (buf : List Nat) (shs : List ElfSection) (is64 : Bool)
    (textBaseAddr : Nat) (capstone : Capstone)
    (symtab strtab : ElfSection) (fns : List FuncSym)
    (h1 : resolveSymtabSections shs = (some symtab, some strtab))
    (h2 : symtab.size ≠ 0)
    (h3 : symtabScan buf symtab strtab is64 textBaseAddr = (fns, true))
    (h4 : sortByAddress fns ≠ []) :
    extractFunctionSymbols buf shs is64 textBaseAddr capstone
        = sortByAddress fns
    ∧ List.Sorted addrLE (extractFunctionSymbols buf shs is64 textBaseAddr
        capstone)
    ∧ ∀ f ∈ extractFunctionSymbols buf shs is64 textBaseAddr capstone,
        (f.address = if f.offset < 0x1000 then textBaseAddr + f.offset
          else f.offset)
        ∧ ∃ j e, decodeSymEntry buf symtab.offset
              ((buf.drop strtab.offset).take strtab.size) is64 j = some e
            ∧ e.name ≠ "" ∧ e.symType = 2 ∧ f = mkFuncSym textBaseAddr e := by
  have hout : extractFunctionSymbols buf shs is64 textBaseAddr capstone
      = sortByAddress fns := by
    unfold extractFunctionSymbols
    rw [h1]
    try dsimp only
    rw [if_neg h2]
    try dsimp only
    rw [h3]
    try dsimp only
    rw [if_pos rfl]
    rw [if_neg h4]
  have hmem : ∀ f ∈ fns,
      (f.address = if f.offset < 0x1000 then textBaseAddr + f.offset
        else f.offset)
      ∧ ∃ j e, decodeSymEntry buf symtab.offset
            ((buf.drop strtab.offset).take strtab.size) is64 j = some e
          ∧ e.name ≠ "" ∧ e.symType = 2 ∧ f = mkFuncSym textBaseAddr e := by
    intro f hf
    have hscan := h3
    unfold symtabScan at hscan
    split at hscan
    · have hfns : fns = (symtabScanGo buf symtab.offset
          ((buf.drop strtab.offset).take strtab.size) is64 textBaseAddr 0
          (symtab.size / (if is64 then 24 else 16))).1 := by
        rw [hscan]
      rw [hfns] at hf
      obtain ⟨j, e, _, _, hd, hn, ht, hfe⟩ := symtabScanGo_mem buf
        symtab.offset ((buf.drop strtab.offset).take strtab.size) is64
        textBaseAddr _ 0 f hf
      exact ⟨by rw [hfe]; exact mkFuncSym_formula textBaseAddr e,
             j, e, hd, hn, ht, hfe⟩
    · exact absurd hscan (by simp)
  refine ⟨hout, ?_, ?_⟩
  · rw [hout]
    exact List.sorted_insertionSort addrLE fns
  · intro f hf
    rw [hout] at hf
    exact hmem f ((List.mem_insertionSort addrLE).1 hf)

/-- The concrete ELF pieces of the C4 counterexample: a symbol table with a
single non-function symbol, so the primary path yields nothing and the
pattern fallback runs on a disassembly whose prologue sits `0x1000` bytes
into the text section. -/
def c4buf : List Nat :=
  [1, 0, 0, 0, 0, 0, 0, 0, 0, 0, 0, 0, 0, 0, 0, 0, 0, 97, 0, 85, 137]

def c4shs : List ElfSection :=
  [⟨0, 2, 0, 0, 0, 16, 0, 0, 0, 0, ".symtab"⟩,
   ⟨0, 3, 0, 0, 16, 3, 0, 0, 0, 0, ".strtab"⟩,
   ⟨0, 1, 6, 0, 19, 2, 0, 0, 0, 0, ".text"⟩]

def c4capstone : Capstone := fun _ base =>
  [⟨base + 0x1000, "push", "rbp"⟩, ⟨base + 0x1001, "mov", "rbp, rsp"⟩]

/-- Counterexample to C4 as stated: with no function symbols in the table,
the resolver's output comes from the pattern fallback; its single entry has
offset `0x1000` and address `loadBias + 0x1000`, while the claimed formula
demands the address equal the raw offset `0x1000` once it is not below
`0x1000` — and the entry corresponds to no `STT_FUNC` symbol at all. -/
theorem c4_counterexample :
    extractFunctionSymbols c4buf c4shs false 0x10000000 c4capstone
        = [⟨"func_1", 0x10001000, 0x1000⟩]
    ∧ ¬ ((0x10001000 : Nat) =
        if (0x1000 : Nat) < 0x1000 then 0x10000000 + 0x1000
        else (0x1000 : Nat)) := by
  constructor
  · rfl
  · decide

def c4wbuf : List Nat :=
  [1, 0, 0, 0, 8, 0, 0, 0, 0, 0, 0, 0, 2, 0, 0, 0, 0, 109, 0]

def c4wshs : List ElfSection :=
  [⟨0, 2, 0, 0, 0, 16, 0, 0, 0, 0, ".symtab"⟩,
   ⟨0, 3, 0, 0, 16, 3, 0, 0, 0, 0, ".strtab"⟩]

/-- Witness for C4: a one-symbol table with `STT_FUNC` entry `m` at raw
value 8 resolves to `loadBias + 8` and the output is address-sorted. -/
theorem c4_witness :
    extractFunctionSymbols c4wbuf c4wshs false 0x10000000 c4capstone
        = [⟨"m", 0x10000008, 8⟩]
    ∧ List.Sorted addrLE
        (extractFunctionSymbols c4wbuf c4wshs false 0x10000000 c4capstone) := by
  have h := c4_symbol_path c4wbuf c4wshs false 0x10000000 c4capstone
    ⟨0, 2, 0, 0, 0, 16, 0, 0, 0, 0, ".symtab"⟩
    ⟨0, 3, 0, 0, 16, 3, 0, 0, 0, 0, ".strtab"⟩
    [⟨"m", 0x10000008, 8⟩] (by rfl) (by decide) (by rfl) (by decide)
  exact ⟨by rw [h.1]; rfl, h.2.1⟩

/-! ## C5: the pattern-detection fallback -/

/-- The set of prologue sites the spec describes: instruction positions
pushing the frame pointer immediately followed by the frame-pointer move.
Stated over consecutive instruction pairs; used to compare the detector's
output against the claim's wording. -/
def prologueAddresses (instructions : List Insn) : List Nat :=
  (instructions.zip instructions.tail).filterMap
    (fun p => if isProloguePair p.1 p.2 then some p.1.address else none)

theorem scanProloguesGo_addresses (textBaseAddr : Nat) :
    ∀ (l : List Insn) (idx : Nat),
      (scanProloguesGo textBaseAddr l idx).map (fun f => f.address)
        = prologueAddresses l := by
  intro l
  induction l with
  | nil => intro idx; rfl
  | cons insn rest ih =>
    intro idx
    cases rest with
    | nil => rfl
    | cons nxt rest2 =>
      show (scanProloguesGo textBaseAddr (insn :: nxt :: rest2) idx).map _ = _
      rw [scanProloguesGo]
      unfold prologueAddresses
      simp only [List.tail_cons, List.zip_cons_cons, List.filterMap_cons]
      by_cases hp : isProloguePair insn nxt
      · rw [if_pos hp, if_pos hp]
        simp only [List.map_cons]
        rw [ih (idx + 1)]
        rfl
      · rw [if_neg hp, if_neg hp]
        rw [ih idx]
        rfl

theorem scanProloguesGo_offsets (textBaseAddr : Nat) :
    ∀ (l : List Insn) (idx : Nat) (f : FuncSym),
      f ∈ scanProloguesGo textBaseAddr l idx →
      f.offset = f.address - textBaseAddr := by
  intro l
  induction l with
  | nil => intro idx f hf; exact absurd hf (by simp [scanProloguesGo])
  | cons insn rest ih =>
    intro idx f hf
    cases rest with
    | nil => exact absurd hf (by simp [scanProloguesGo])
    | cons nxt rest2 =>
      rw [scanProloguesGo] at hf
      by_cases hp : isProloguePair insn nxt
      · rw [if_pos hp] at hf
        rcases List.mem_cons.1 hf with hf | hf
        · rw [hf]
        · exact ih (idx + 1) f hf
      · rw [if_neg hp] at hf
        exact ih idx f hf

/-- C5 (amended): the fallback detector opens a boundary exactly at each
frame-pointer prologue (push of `rbp`/`ebp` immediately followed by
`mov rbp, rsp`/`mov ebp, esp`), and when the text section contains the
idiom it finds at least one boundary; but the detector is dispatched only
when a (nonzero-size) symbol table *and* its string table are present yet
yield no function symbols — when no symbol/string table exists at all the
resolver returns the empty sequence without invoking the detector (and an
empty result is an empty sequence, never an error). -/
theorem c5_fallback (buf : List Nat) (shs : List ElfSection) (is64 : Bool)
    (textBaseAddr : Nat) (capstone : Capstone) :
    (∀ symtab strtab,
      resolveSymtabSections shs = (some symtab, some strtab) →
      symtab.size ≠ 0 →
      (if (symtabScan buf symtab strtab is64 textBaseAddr).2
       then sortByAddress (symtabScan buf symtab strtab is64 textBaseAddr).1
       else (symtabScan buf symtab strtab is64 textBaseAddr).1) = [] →
      extractFunctionSymbols buf shs is64 textBaseAddr capstone
        = detectFunctionsFromAssembly buf shs textBaseAddr capstone)
    ∧ ((resolveSymtabSections shs).1 = none ∨
        (resolveSymtabSections shs).2 = none →
      extractFunctionSymbols buf shs is64 textBaseAddr capstone = [])
    ∧ (∀ ts, shs.find? (fun sh => sh.name = ".text") = some ts →
        ts.size ≠ 0 → ts.offset + ts.size ≤ buf.length →
        (detectFunctionsFromAssembly buf shs textBaseAddr capstone).map
            (fun f => f.address)
          = prologueAddresses
              (capstone ((buf.drop ts.offset).take ts.size) textBaseAddr)
        ∧ (prologueAddresses
              (capstone ((buf.drop ts.offset).take ts.size) textBaseAddr)
            ≠ [] →
          detectFunctionsFromAssembly buf shs textBaseAddr capstone ≠ [])) := by
  refine ⟨?_, ?_, ?_⟩
  · intro symtab strtab h1 h2 h3
    unfold extractFunctionSymbols
    rw [h1]
    try dsimp only
    rw [if_neg h2]
    try dsimp only
    rw [h3]
    rw [if_pos rfl]
  · intro h
    unfold extractFunctionSymbols
    rcases hr : resolveSymtabSections shs with ⟨s1, s2⟩
    rw [hr] at h
    cases s1 with
    | none => rfl
    | some s =>
      cases s2 with
      | none => rfl
      | some t => rcases h with h | h <;> exact absurd h (by simp)
  · intro ts hts hsz hrange
    have hdet : detectFunctionsFromAssembly buf shs textBaseAddr capstone
        = scanProloguesGo textBaseAddr
            (capstone ((buf.drop ts.offset).take ts.size) textBaseAddr) 0 := by
      unfold detectFunctionsFromAssembly
      rw [hts]
      try dsimp only
      rw [if_neg hsz, if_pos hrange]
    constructor
    · rw [hdet]
      exact scanProloguesGo_addresses textBaseAddr _ 0
    · intro hne hcontra
      apply hne
      rw [← scanProloguesGo_addresses textBaseAddr
        (capstone ((buf.drop ts.offset).take ts.size) textBaseAddr) 0]
      rw [← hdet, hcontra]
      rfl

def c5shs : List ElfSection :=
  [⟨0, 1, 6, 0, 0, 2, 0, 0, 0, 0, ".text"⟩]

def c5capstone : Capstone := fun _ base =>
  [⟨base, "push", "rbp"⟩, ⟨base + 1, "mov", "rbp, rsp"⟩]

/-- Counterexample to C5 as stated: a relocatable object with *no* symbol
table whose text section contains the frame-pointer prologue idiom — the
resolver returns the empty sequence because the early return for a missing
symbol table skips the fallback dispatch entirely, even though the
detector, had it run, would have found a boundary. -/
theorem c5_counterexample :
    extractFunctionSymbols [0x55, 0x66] c5shs true 0x10000000 c5capstone = []
    ∧ detectFunctionsFromAssembly [0x55, 0x66] c5shs 0x10000000 c5capstone
        = [⟨"func_1", 0x10000000, 0⟩]
    ∧ prologueAddresses (c5capstone [0x55, 0x66] 0x10000000) ≠ [] := by
  exact ⟨rfl, rfl, by decide⟩

def c5wbuf : List Nat :=
  [1, 0, 0, 0, 0, 0, 0, 0, 0, 0, 0, 0, 0, 0, 0, 0, 0, 97, 0, 85, 137]

def c5wshs : List ElfSection :=
  [⟨0, 2, 0, 0, 0, 16, 0, 0, 0, 0, ".symtab"⟩,
   ⟨0, 3, 0, 0, 16, 3, 0, 0, 0, 0, ".strtab"⟩,
   ⟨0, 1, 6, 0, 19, 2, 0, 0, 0, 0, ".text"⟩]

/-- Witness for C5: a present-but-functionless symbol table dispatches to
the detector, which opens exactly one boundary at the prologue. -/
theorem c5_witness :
    extractFunctionSymbols c5wbuf c5wshs false 0x10000000 c5capstone
        = detectFunctionsFromAssembly c5wbuf c5wshs 0x10000000 c5capstone
    ∧ (detectFunctionsFromAssembly c5wbuf c5wshs 0x10000000 c5capstone).map
        (fun f => f.address)
      = prologueAddresses (c5capstone ((c5wbuf.drop 19).take 2) 0x10000000)
    ∧ detectFunctionsFromAssembly c5wbuf c5wshs 0x10000000 c5capstone
        ≠ [] := by
  have h := c5_fallback c5wbuf c5wshs false 0x10000000 c5capstone
  have h1 := h.1 ⟨0, 2, 0, 0, 0, 16, 0, 0, 0, 0, ".symtab"⟩
    ⟨0, 3, 0, 0, 16, 3, 0, 0, 0, 0, ".strtab"⟩ (by rfl) (by decide) (by rfl)
  have h3 := h.2.2 ⟨0, 1, 6, 0, 19, 2, 0, 0, 0, 0, ".text"⟩ (by rfl)
    (by decide) (by decide)
  exact ⟨h1, h3.1, h3.2 (by decide)⟩

/-! ## C6: stack placement above mapped sections and segments -/

theorem le_pageCeil (a : Nat) : a ≤ pageCeil a := by
  unfold pageCeil
  omega

theorem pageCeil_le (a : Nat) : pageCeil a ≤ a + 4095 := by
  unfold pageCeil
  omega

theorem pageFloor_le (a : Nat) : pageFloor a ≤ a := by
  unfold pageFloor
  omega

theorem pageFloor_pageCeil (a : Nat) : pageFloor (pageCeil a) = pageCeil a := by
  unfold pageFloor pageCeil
  rw [Nat.mul_div_cancel _ (by norm_num : 0 < 4096)]

theorem pageCeil_pos (a : Nat) (h : 0 < a) : 4096 ≤ pageCeil a := by
  unfold pageCeil
  omega

theorem foldl_sectionEnd_ge (shs : List ElfSection) :
    ∀ h0 : Nat, h0 ≤ shs.foldl sectionEndFold h0 := by
  induction shs with
  | nil => intro h0; exact Nat.le_refl _
  | cons sh rest ih =>
    intro h0
    refine Nat.le_trans ?_ (ih (sectionEndFold h0 sh))
    unfold sectionEndFold
    split
    · omega
    · exact Nat.le_refl _

theorem foldl_sectionEnd_mem (shs : List ElfSection) :
    ∀ (h0 : Nat) (sh : ElfSection), sh ∈ shs → sh.flags &&& 2 ≠ 0 →
    0 < sh.size → 0 < sh.addr →
    sh.addr + sh.size ≤ shs.foldl sectionEndFold h0 := by
  induction shs with
  | nil => intro h0 sh hm; exact absurd hm (by simp)
  | cons x rest ih =>
    intro h0 sh hm h1 h2 h3
    rcases List.mem_cons.1 hm with hm | hm
    · subst hm
      refine Nat.le_trans ?_ (foldl_sectionEnd_ge rest (sectionEndFold h0 sh))
      unfold sectionEndFold
      split
      · exact Nat.le_refl _
      · omega
    · exact ih (sectionEndFold h0 x) sh hm h1 h2 h3

theorem foldl_segmentEnd_ge (phs : List ProgramHeader) :
    ∀ h0 : Nat, h0 ≤ phs.foldl segmentEndFold h0 := by
  induction phs with
  | nil => intro h0; exact Nat.le_refl _
  | cons ph rest ih =>
    intro h0
    refine Nat.le_trans ?_ (ih (segmentEndFold h0 ph))
    unfold segmentEndFold
    split
    · omega
    · exact Nat.le_refl _

theorem foldl_segmentEnd_mem (phs : List ProgramHeader) :
    ∀ (h0 : Nat) (ph : ProgramHeader), ph ∈ phs → ph.type = 1 →
    0 < ph.memsz → ph.vaddr + ph.memsz ≤ phs.foldl segmentEndFold h0 := by
  induction phs with
  | nil => intro h0 ph hm; exact absurd hm (by simp)
  | cons x rest ih =>
    intro h0 ph hm h1 h2
    rcases List.mem_cons.1 hm with hm | hm
    · subst hm
      refine Nat.le_trans ?_ (foldl_segmentEnd_ge rest (segmentEndFold h0 ph))
      unfold segmentEndFold
      split
      · exact Nat.le_refl _
      · omega
    · exact ih (segmentEndFold h0 x) ph hm h1 h2

theorem isObjectFileOf_false_addr (shs : List ElfSection)
    (h : isObjectFileOf shs = false) :
    ∀ sh ∈ shs, sh.flags &&& 2 ≠ 0 → 0 < sh.size → 0 < sh.addr := by
  intro sh hm h1 h2
  unfold isObjectFileOf at h
  rw [List.any_eq_false] at h
  have := h sh hm
  simp only [Bool.and_eq_true, decide_eq_true_eq, not_and] at this
  have h3 := this ⟨h1, h2⟩
  omega

theorem mapOneSection_not_alloc (isObj : Bool) (st : MapState)
    (sh : ElfSection) (h : ¬(sh.flags &&& 2 ≠ 0 ∧ 0 < sh.size)) :
    mapOneSection isObj st sh = st := by
  unfold mapOneSection
  rw [if_neg h]

theorem mapOneSection_exec (st : MapState) (sh : ElfSection)
    (h : sh.flags &&& 2 ≠ 0 ∧ 0 < sh.size) :
    mapOneSection false st sh =
      if sh.addr = 0 then st
      else if (pageFloor sh.addr, max 4096 (pageCeil sh.size))
          ∈ st.mappedRegions then st
      else { baseAddr := st.baseAddr,
             mappedRegions := st.mappedRegions
               ++ [(pageFloor sh.addr, max 4096 (pageCeil sh.size))],
             sectionAddresses := fun n =>
               if n = sh.name then some sh.addr
               else st.sectionAddresses n } := by
  unfold mapOneSection
  rw [if_pos h]
  rw [if_neg (show ¬((false = true) ∧ sh.addr = 0) by simp)]

theorem mapOneSection_obj_zero (st : MapState) (sh : ElfSection)
    (h : sh.flags &&& 2 ≠ 0 ∧ 0 < sh.size) (hz : sh.addr = 0) :
    mapOneSection true st sh =
      (if pageCeil st.baseAddr = 0 then
        { st with baseAddr := pageCeil st.baseAddr + pageCeil sh.size }
      else if (pageFloor (pageCeil st.baseAddr),
          max 4096 (pageCeil sh.size)) ∈ st.mappedRegions then
        { st with baseAddr := pageCeil st.baseAddr + pageCeil sh.size }
      else
        { baseAddr := pageCeil st.baseAddr + pageCeil sh.size,
          mappedRegions := st.mappedRegions
            ++ [(pageFloor (pageCeil st.baseAddr),
                 max 4096 (pageCeil sh.size))],
          sectionAddresses := fun n =>
            if n = sh.name then some (pageCeil st.baseAddr)
            else st.sectionAddresses n }) := by
  unfold mapOneSection
  rw [if_pos h]
  rw [if_pos (show (true = true) ∧ sh.addr = 0 from ⟨rfl, hz⟩)]

theorem mapAllSections_regions_exec (S : Nat) :
    ∀ (shs : List ElfSection) (st : MapState),
    (∀ r ∈ st.mappedRegions, r.1 + r.2 ≤ S) →
    (∀ sh ∈ shs, sh.flags &&& 2 ≠ 0 → 0 < sh.size →
      pageFloor sh.addr + max 4096 (pageCeil sh.size) ≤ S) →
    ∀ r ∈ (shs.foldl (mapOneSection false) st).mappedRegions,
      r.1 + r.2 ≤ S := by
  intro shs
  induction shs with
  | nil => intro st hst _ r hr; exact hst r hr
  | cons sh rest ih =>
    intro st hst hsh r hr
    rw [List.foldl_cons] at hr
    refine ih (mapOneSection false st sh) ?_
      (fun s hs => hsh s (List.mem_cons_of_mem _ hs)) r hr
    intro r2 hr2
    by_cases h1 : sh.flags &&& 2 ≠ 0 ∧ 0 < sh.size
    · rw [mapOneSection_exec st sh h1] at hr2
      split_ifs at hr2
      · exact hst r2 hr2
      · exact hst r2 hr2
      · rcases List.mem_append.1 hr2 with h | h
        · exact hst r2 h
        · have h2 : r2 = (pageFloor sh.addr, max 4096 (pageCeil sh.size)) := by
            simpa using h
          rw [h2]
          exact hsh sh (List.mem_cons_self _ _) h1.1 h1.2
    · rw [mapOneSection_not_alloc false st sh h1] at hr2
      exact hst r2 hr2

theorem mapAllSections_obj_invariant :
    ∀ (shs : List ElfSection) (st : MapState),
    (∀ sh ∈ shs, sh.flags &&& 2 ≠ 0 → 0 < sh.size → sh.addr = 0) →
    (∀ r ∈ st.mappedRegions, r.1 + r.2 ≤ st.baseAddr) →
    (∀ r ∈ (shs.foldl (mapOneSection true) st).mappedRegions,
      r.1 + r.2 ≤ (shs.foldl (mapOneSection true) st).baseAddr)
    ∧ st.baseAddr ≤ (shs.foldl (mapOneSection true) st).baseAddr := by
  intro shs
  induction shs with
  | nil => intro st _ hst; exact ⟨hst, Nat.le_refl _⟩
  | cons sh rest ih =>
    intro st hz hst
    rw [List.foldl_cons]
    have hstep : (∀ r ∈ (mapOneSection true st sh).mappedRegions,
        r.1 + r.2 ≤ (mapOneSection true st sh).baseAddr)
        ∧ st.baseAddr ≤ (mapOneSection true st sh).baseAddr := by
      by_cases h1 : sh.flags &&& 2 ≠ 0 ∧ 0 < sh.size
      · have hz1 := hz sh (List.mem_cons_self _ _) h1.1 h1.2
        rw [mapOneSection_obj_zero st sh h1 hz1]
        have hbc := le_pageCeil st.baseAddr
        split_ifs with ht hdup
        · exact ⟨fun r hr => by
            have := hst r hr
            show r.1 + r.2 ≤ pageCeil st.baseAddr + pageCeil sh.size
            omega, by show st.baseAddr ≤ pageCeil st.baseAddr + _; omega⟩
        · exact ⟨fun r hr => by
            have := hst r hr
            show r.1 + r.2 ≤ pageCeil st.baseAddr + pageCeil sh.size
            omega, by show st.baseAddr ≤ pageCeil st.baseAddr + _; omega⟩
        · refine ⟨?_, by show st.baseAddr ≤ pageCeil st.baseAddr + _; omega⟩
          intro r hr
          rcases List.mem_append.1 hr with h | h
          · have := hst r h
            show r.1 + r.2 ≤ pageCeil st.baseAddr + pageCeil sh.size
            omega
          · have h2 : r = (pageFloor (pageCeil st.baseAddr),
                max 4096 (pageCeil sh.size)) := by simpa using h
            rw [h2]
            show pageFloor (pageCeil st.baseAddr) + max 4096 (pageCeil sh.size)
              ≤ pageCeil st.baseAddr + pageCeil sh.size
            rw [pageFloor_pageCeil]
            have hmax : max 4096 (pageCeil sh.size) = pageCeil sh.size :=
              Nat.max_eq_right (pageCeil_pos sh.size h1.2)
            rw [hmax]
      · rw [mapOneSection_not_alloc true st sh h1]
        exact ⟨hst, Nat.le_refl _⟩
    obtain ⟨ih1, ih2⟩ := ih (mapOneSection true st sh)
      (fun s hs => hz s (List.mem_cons_of_mem _ hs)) hstep.1
    exact ⟨ih1, Nat.le_trans hstep.2 ih2⟩

/-- C6 (amended): the 64 KiB stack is placed strictly above every
allocated section's end and every `PT_LOAD` segment's end — and above
every mapped (page-aligned) region — for linked executables; for
relocatable objects it sits a fixed 1 MiB offset above the running base
cursor and strictly above every mapped region *provided all allocated
sections of the object carry address zero* (the claim's unconditional
form fails for a mixed object, see the counterexample). -/
theorem c6_stack_placement (shs : List ElfSection) (phs : List ProgramHeader) :
    stackSizeConst = 0x10000
    ∧ (isObjectFileOf shs = false →
        (∀ sh ∈ shs, sh.flags &&& 2 ≠ 0 → 0 < sh.size →
          sh.addr + sh.size
            < stackAddrOf false shs phs (mapAllSections false shs).baseAddr)
        ∧ (∀ ph ∈ phs, ph.type = 1 → 0 < ph.memsz →
          ph.vaddr + ph.memsz
            < stackAddrOf false shs phs (mapAllSections false shs).baseAddr)
        ∧ (∀ r ∈ (mapAllSections false shs).mappedRegions,
          r.1 + r.2
            ≤ stackAddrOf false shs phs (mapAllSections false shs).baseAddr))
    ∧ (∀ b, stackAddrOf true shs phs b = b + 0x100000)
    ∧ ((∀ sh ∈ shs, sh.flags &&& 2 ≠ 0 → 0 < sh.size → sh.addr = 0) →
        ∀ r ∈ (mapAllSections true shs).mappedRegions,
          r.1 + r.2
            < stackAddrOf true shs phs (mapAllSections true shs).baseAddr) := by
  have hSdef : stackAddrOf false shs phs (mapAllSections false shs).baseAddr
      = pageCeil (highestSegmentEnd phs (highestSectionEnd shs) + 0x100000) :=
    rfl
  refine ⟨rfl, ?_, fun _ => rfl, ?_⟩
  · intro hobj
    have hle := le_pageCeil
      (highestSegmentEnd phs (highestSectionEnd shs) + 0x100000)
    refine ⟨?_, ?_, ?_⟩
    · intro sh hm h1 h2
      have h3 := isObjectFileOf_false_addr shs hobj sh hm h1 h2
      have h4 : sh.addr + sh.size ≤ highestSectionEnd shs :=
        foldl_sectionEnd_mem shs 0 sh hm h1 h2 h3
      have h5 : highestSectionEnd shs
          ≤ highestSegmentEnd phs (highestSectionEnd shs) :=
        foldl_segmentEnd_ge phs (highestSectionEnd shs)
      rw [hSdef]
      omega
    · intro ph hm h1 h2
      have h4 : ph.vaddr + ph.memsz
          ≤ highestSegmentEnd phs (highestSectionEnd shs) :=
        foldl_segmentEnd_mem phs (highestSectionEnd shs) ph hm h1 h2
      rw [hSdef]
      omega
    · rw [hSdef]
      refine mapAllSections_regions_exec _ shs _ (by simp) ?_
      intro sh hm h1 h2
      have h3 := isObjectFileOf_false_addr shs hobj sh hm h1 h2
      have h4 : sh.addr + sh.size ≤ highestSectionEnd shs :=
        foldl_sectionEnd_mem shs 0 sh hm h1 h2 h3
      have h5 : highestSectionEnd shs
          ≤ highestSegmentEnd phs (highestSectionEnd shs) :=
        foldl_segmentEnd_ge phs (highestSectionEnd shs)
      have h6 := pageFloor_le sh.addr
      have h7 : max 4096 (pageCeil sh.size) = pageCeil sh.size :=
        Nat.max_eq_right (pageCeil_pos sh.size h2)
      have h8 := pageCeil_le sh.size
      rw [h7]
      omega
  · intro hz r hr
    have h := mapAllSections_obj_invariant shs ⟨0x10000000, [], fun _ => none⟩
      hz (by simp)
    have h1 := h.1 r hr
    show r.1 + r.2 < (mapAllSections true shs).baseAddr + 0x100000
    have : (List.foldl (mapOneSection true) ⟨0x10000000, [], fun _ => none⟩
        shs).baseAddr = (mapAllSections true shs).baseAddr := rfl
    omega

/-- The mixed-object counterexample sections: a relocatable object (the
text section carries address zero) that also holds an allocated section at
a high fixed address. -/
def c6shs : List ElfSection :=
  [⟨0, 1, 6, 0, 0, 16, 0, 0, 0, 0, ".text"⟩,
   ⟨0, 1, 2, 0x20000000, 0, 16, 0, 0, 0, 0, ".big"⟩]

/-- Counterexample to C6 as stated: for this object the stack lands at
`0x10101000`, *below* the end `0x20000010` of the mapped `.big` section —
the stack is not strictly above every mapped section. -/
theorem c6_counterexample :
    isObjectFileOf c6shs = true
    ∧ (0x20000000, 4096)
        ∈ (mapAllSections (isObjectFileOf c6shs) c6shs).mappedRegions
    ∧ stackAddrOf (isObjectFileOf c6shs) c6shs []
        (mapAllSections (isObjectFileOf c6shs) c6shs).baseAddr
      < 0x20000000 + 16 := by
  refine ⟨rfl, ?_, ?_⟩
  · show (0x20000000, 4096) ∈ [(0x10000000, 4096), (0x20000000, 4096)]
    decide
  · show (0x10101000 : Nat) < 0x20000000 + 16
    decide

def c6wshs : List ElfSection :=
  [⟨0, 1, 6, 0x400000, 0, 16, 0, 0, 0, 0, ".text"⟩]

def c6wphs : List ProgramHeader :=
  [⟨1, 5, 0, 0x400000, 16, 16, 0x1000⟩]

def c6wobj : List ElfSection :=
  [⟨0, 1, 6, 0, 0, 16, 0, 0, 0, 0, ".text"⟩]

/-- Witness for C6 at a one-section executable with one `PT_LOAD` segment,
and at a pure (all-zero-address) object. -/
theorem c6_witness :
    (0x400000 + 16
      < stackAddrOf false c6wshs c6wphs
          (mapAllSections false c6wshs).baseAddr)
    ∧ (∀ r ∈ (mapAllSections false c6wshs).mappedRegions,
        r.1 + r.2 ≤ stackAddrOf false c6wshs c6wphs
          (mapAllSections false c6wshs).baseAddr)
    ∧ (∀ r ∈ (mapAllSections true c6wobj).mappedRegions,
        r.1 + r.2 < stackAddrOf true c6wobj []
          (mapAllSections true c6wobj).baseAddr) := by
  have hexec := (c6_stack_placement c6wshs c6wphs).2.1 (by decide)
  have hobj := (c6_stack_placement c6wobj []).2.2.2 (by decide)
  exact ⟨hexec.1 ⟨0, 1, 6, 0x400000, 0, 16, 0, 0, 0, 0, ".text"⟩
      (by decide) (by decide) (by decide),
    hexec.2.2, hobj⟩

/-! ## C2: the run loop is bounded by the 10,000-instruction ceiling -/

theorem continueExecution_steps_le (emuStart : EmuStart)
    (memRead16 : Nat → Option (List Nat)) (capstone : Capstone) :
    ∀ (k : Nat) (d : Debugger) (e : EngineState),
      maxInstructionsLimit - d.executionCount ≤ k →
      (continueExecution emuStart memRead16 capstone d e).steps
        ≤ maxInstructionsLimit - d.executionCount := by
  intro k
  induction k with
  | zero =>
    intro d e hk
    rw [continueExecution]
    split
    · exact Nat.zero_le _
    · split
      · exact Nat.zero_le _
      · exfalso; omega
  | succ k ih =>
    intro d e hk
    rw [continueExecution]
    split
    · exact Nat.zero_le _
    · split
      · exact Nat.zero_le _
      · split
        · exact Nat.zero_le _
        · have hstep := stepInstruction_count emuStart d e
          have h1 := ih
            { (stepInstruction emuStart d e).1 with
                executionCount :=
                  (stepInstruction emuStart d e).1.executionCount + 1 }
            (stepInstruction emuStart d e).2.1
            (by
              show maxInstructionsLimit -
                ((stepInstruction emuStart d e).1.executionCount + 1) ≤ k
              rw [hstep]
              omega)
          have hproj : ({ (stepInstruction emuStart d e).1 with
              executionCount :=
                (stepInstruction emuStart d e).1.executionCount + 1 } :
              Debugger).executionCount = d.executionCount + 1 := by
            show (stepInstruction emuStart d e).1.executionCount + 1
              = d.executionCount + 1
            rw [hstep]
          rw [hproj] at h1
          show (continueExecution emuStart memRead16 capstone
              { (stepInstruction emuStart d e).1 with
                  executionCount :=
                    (stepInstruction emuStart d e).1.executionCount + 1 }
              (stepInstruction emuStart d e).2.1).steps + 1
            ≤ maxInstructionsLimit - d.executionCount
          omega

/-- C2: every `Run()` performs at most 10,000 single-instruction steps; the
loop stops with the limit-reached reason as soon as the instruction counter
has hit the fixed ceiling, and with the program-completed reason when the
instruction at the current program counter is the halt opcode; hence every
run terminates within the bound even if the code never reaches a halt. -/
theorem c2_run_limit (emuStart : EmuStart)
    (memRead16 : Nat → Option (List Nat)) (capstone : Capstone) :
    (∀ (d : Debugger) (e : EngineState),
      (runUntilHalt emuStart memRead16 capstone d e).steps ≤ 10000)
    ∧ (∀ (d : Debugger) (e : EngineState), d.isRunning = true →
        d.isPaused = false → 10000 ≤ d.executionCount →
        continueExecution emuStart memRead16 capstone d e
          = ⟨0, stopExecution d, e, StopReason.limitReached⟩)
    ∧ (∀ (d : Debugger) (e : EngineState), d.isRunning = true →
        d.isPaused = false → d.executionCount < 10000 →
        isHaltInstruction memRead16 capstone e.pc = true →
        continueExecution emuStart memRead16 capstone d e
          = ⟨0, stopExecution d, e, StopReason.programCompleted⟩) := by
  refine ⟨?_, ?_, ?_⟩
  · intro d e
    unfold runUntilHalt
    split
    · exact Nat.zero_le _
    · have h := continueExecution_steps_le emuStart memRead16 capstone
        maxInstructionsLimit
        { d with isRunning := true, isPaused := false, executionCount := 0 }
        e (by simp)
      simpa [maxInstructionsLimit] using h
  · intro d e h1 h2 h3
    rw [continueExecution]
    rw [if_neg (by simp [h1, h2])]
    rw [dif_pos (by simpa [maxInstructionsLimit] using h3)]
  · intro d e h1 h2 h3 hhalt
    rw [continueExecution]
    rw [if_neg (by simp [h1, h2])]
    rw [dif_neg (by simp only [maxInstructionsLimit]; omega)]
    rw [if_pos hhalt]

/-- Witness for C2 at concrete oracles: a never-halting engine exercises
the 10,000-step bound and the limit-reached stop; a `hlt` disassembly
exercises the program-completed stop. -/
theorem c2_witness :
    (runUntilHalt (fun e => .ok (e, false)) (fun _ => none)
      (fun _ _ => []) (initDebugger 0) ⟨0, 0⟩).steps ≤ 10000
    ∧ continueExecution (fun e => .ok (e, false)) (fun _ => none)
        (fun _ _ => [])
        { initDebugger 0 with isRunning := true, executionCount := 10000 }
        ⟨0, 0⟩
        = ⟨0, stopExecution
            { initDebugger 0 with isRunning := true, executionCount := 10000 },
           ⟨0, 0⟩, StopReason.limitReached⟩
    ∧ continueExecution (fun e => .ok (e, false)) (fun _ => some [])
        (fun _ a => [⟨a, "hlt", ""⟩]) { initDebugger 0 with isRunning := true }
        ⟨0, 0⟩
        = ⟨0, stopExecution { initDebugger 0 with isRunning := true },
           ⟨0, 0⟩, StopReason.programCompleted⟩ := by
  refine ⟨(c2_run_limit _ _ _).1 _ _, (c2_run_limit _ _ _).2.1 _ _ rfl rfl
    (by decide), (c2_run_limit _ _ _).2.2 _ _ rfl rfl (by decide) (by decide)⟩

/-! ## C9: trampoline and exit breakpoint guarded by a positive `main` -/

/-- C9: for a relocatable object, the synthetic halt trampoline (exit page,
`HLT` byte `0xF4`, pushed synthetic return address, `argc`/`argv` setup)
and the exit breakpoint are installed exactly when a `main` symbol is found
with a strictly positive offset; when `main` is absent or resolves to
offset `0`, nothing is installed and the entry point falls back to the
start of the mapped text section. -/
theorem c9_trampoline (is64 : Bool) (entries : List SymEntry)
    (textAddr stackAddr stackSize : Nat) (mem : Nat → Nat) (sp : Nat)
    (hsp : sp ≤ stackAddr + stackSize + 0x1000) :
    ((findMainValue entries = none ∨ findMainValue entries = some 0) →
      setupExitTrampoline true is64 entries stackAddr stackSize mem sp
          = ⟨none, mem, none, sp, false, []⟩
      ∧ objectEntryPoint textAddr entries = textAddr)
    ∧ (∀ v, findMainValue entries = some v → 0 < v →
      (setupExitTrampoline true is64 entries stackAddr stackSize mem
          sp).exitAddr = some (stackAddr + stackSize + 0x1000)
      ∧ (setupExitTrampoline true is64 entries stackAddr stackSize mem
          sp).mem (stackAddr + stackSize + 0x1000) = 0xF4
      ∧ (setupExitTrampoline true is64 entries stackAddr stackSize mem
          sp).breakpoints = [stackAddr + stackSize + 0x1000]
      ∧ (setupExitTrampoline true is64 entries stackAddr stackSize mem
          sp).pushedReturnValue = some (stackAddr + stackSize + 0x1000)
      ∧ (setupExitTrampoline true is64 entries stackAddr stackSize mem
          sp).argcArgvInitialized = true
      ∧ readBytes
          (setupExitTrampoline true is64 entries stackAddr stackSize mem
            sp).mem
          (setupExitTrampoline true is64 entries stackAddr stackSize mem
            sp).spAfter (if is64 then 8 else 4)
          = leBytes (if is64 then 8 else 4) (stackAddr + stackSize + 0x1000)
      ∧ objectEntryPoint textAddr entries = textAddr + v) := by
  constructor
  · intro h
    unfold setupExitTrampoline objectEntryPoint
    rcases h with h | h <;> simp [h]
  · intro v hv hpos
    have hread : ∀ (n : Nat) (m : Nat → Nat) (a : Nat),
        readBytes (writeBytes m a (leBytes n (stackAddr + stackSize + 0x1000)))
          a n = leBytes n (stackAddr + stackSize + 0x1000) := by
      intro n m a
      have h := readBytes_writeBytes
        (leBytes n (stackAddr + stackSize + 0x1000)) m a
      rwa [leBytes_length] at h
    have hentry : objectEntryPoint textAddr entries = textAddr + v := by
      unfold objectEntryPoint
      rw [hv]
      simp [hpos]
    rcases Bool.eq_false_or_eq_true is64 with h64 | h64 <;> subst h64
    · have hsetup : setupExitTrampoline true true entries stackAddr stackSize
          mem sp =
          ⟨some (stackAddr + stackSize + 0x1000),
           writeBytes
             (writeBytes mem (stackAddr + stackSize + 0x1000) [0xF4])
             (sp - 8) (leBytes 8 (stackAddr + stackSize + 0x1000)),
           some (stackAddr + stackSize + 0x1000), sp - 8, true,
           [stackAddr + stackSize + 0x1000]⟩ := by
        unfold setupExitTrampoline
        rw [hv]
        simp [hpos]
      rw [hsetup]
      refine ⟨rfl, ?_, rfl, rfl, rfl, ?_, hentry⟩
      · show writeBytes _ (sp - 8) (leBytes 8 _) _ = 0xF4
        rw [writeBytes_apply_notin _ _ _ _
          (Or.inr (by rw [leBytes_length]; omega))]
        exact writeBytes_apply_head _ _ _ _
      · exact hread 8 _ (sp - 8)
    · have hsetup : setupExitTrampoline true false entries stackAddr stackSize
          mem sp =
          ⟨some (stackAddr + stackSize + 0x1000),
           writeBytes
             (writeBytes
               (writeBytes
                 (writeBytes mem (stackAddr + stackSize + 0x1000) [0xF4])
                 (sp - 4) [0, 0, 0, 0])
               (sp - 8) [0, 0, 0, 0])
             (sp - 8 - 4) (leBytes 4 (stackAddr + stackSize + 0x1000)),
           some (stackAddr + stackSize + 0x1000), sp - 8 - 4, true,
           [stackAddr + stackSize + 0x1000]⟩ := by
        unfold setupExitTrampoline
        rw [hv]
        simp [hpos]
      rw [hsetup]
      refine ⟨rfl, ?_, rfl, rfl, rfl, ?_, hentry⟩
      · show writeBytes _ (sp - 8 - 4) (leBytes 4 _) _ = 0xF4
        rw [writeBytes_apply_notin _ _ _ _
          (Or.inr (by rw [leBytes_length]; omega))]
        rw [writeBytes_apply_notin _ _ _ _ (Or.inr (by simp; omega))]
        rw [writeBytes_apply_notin _ _ _ _ (Or.inr (by simp; omega))]
        exact writeBytes_apply_head _ _ _ _
      · exact hread 4 _ (sp - 8 - 4)

/-- Witness for C9: a `main` at offset 5 installs the trampoline and exit
breakpoint; a symbol table without `main` installs nothing and the entry
point falls back to the text base. -/
theorem c9_witness :
    (setupExitTrampoline true true [⟨"main", 5, 2⟩] 0x10101000 0x10000
      (fun _ => 0) 0x10110000).exitAddr
      = some (0x10101000 + 0x10000 + 0x1000)
    ∧ (setupExitTrampoline true true [⟨"main", 5, 2⟩] 0x10101000 0x10000
      (fun _ => 0) 0x10110000).breakpoints = [0x10101000 + 0x10000 + 0x1000]
    ∧ objectEntryPoint 0x10000000 [⟨"main", 5, 2⟩] = 0x10000000 + 5
    ∧ setupExitTrampoline true true [⟨"f", 3, 2⟩] 0x10101000 0x10000
        (fun _ => 0) 0x10110000
      = ⟨none, (fun _ => 0), none, 0x10110000, false, []⟩
    ∧ objectEntryPoint 0x10000000 [⟨"f", 3, 2⟩] = 0x10000000 := by
  have h1 := (c9_trampoline true [⟨"main", 5, 2⟩] 0x10000000 0x10101000
    0x10000 (fun _ => 0) 0x10110000 (by decide)).2 5 rfl (by decide)
  have h2 := (c9_trampoline true [⟨"f", 3, 2⟩] 0x10000000 0x10101000
    0x10000 (fun _ => 0) 0x10110000 (by decide)).1 (Or.inl rfl)
  exact ⟨h1.1, h1.2.2.1, h1.2.2.2.2.2.2, h2.1, h2.2⟩

end UDbg
